import Mathlib

/-!
Verification development for the Friendle repository: a Discord bot
(`src/index.js`) that builds daily social puzzles from opted-in members'
recent messages, and a Cloudflare Worker (`src/unnamed/part_000`) that
stores puzzles behind HMAC-signed writes and maintains KV counters.

The JavaScript is embedded shallowly: pure logic is translated function by
function; network/crypto effects (message fetching, `Math.random`,
SHA-256/HMAC digests, `JSON.parse`) become explicit parameters; the KV
store becomes an association list.  JS strings are modelled by `String`
(code points; the sources only compare/measure ASCII data where it
matters), JS numbers by `Nat`/`Int`, and JS `null`/`undefined` by
`Option`.
-/

namespace Friendle

/-! ## JavaScript primitives shared by both files -/

/-- JS `a || b` for an optional string `a` (both `undefined`/`null` and the
empty string are falsy). -/
def jsOrOptStr (a : Option String) (b : String) : String :=
  match a with
  | some s => if s = "" then b else s
  | none => b

/-- JS `a || b` for strings (`""` is falsy). -/
def jsOrStr (a b : String) : String :=
  if a = "" then b else a

/-- Truthiness of an optional string (`undefined`/`null` and `""` are falsy). -/
def jsStrTruthy (a : Option String) : Bool :=
  match a with
  | some s => s != ""
  | none => false

/-- The character class of the JS regex `\s` (whitespace). -/
def isJsWs (c : Char) : Bool :=
  c == ' ' || c == '\t' || c == '\n' || c == '\x0b' || c == '\x0c' || c == '\r' ||
  c.toNat == 0xA0 || c.toNat == 0x1680 || (0x2000 ≤ c.toNat && c.toNat ≤ 0x200A) ||
  c.toNat == 0x2028 || c.toNat == 0x2029 || c.toNat == 0x202F || c.toNat == 0x205F ||
  c.toNat == 0x3000 || c.toNat == 0xFEFF

/-- The character class of the JS regex `\w` (`[A-Za-z0-9_]`). -/
def isJsWordChar (c : Char) : Bool :=
  c.isAlpha || c.isDigit || c == '_'

/-- JS `String.prototype.toLowerCase` on the ASCII range (`Char.toLower`
is the same ASCII mapping; none of the repository's comparisons depend on
non-ASCII case folding).  Defined by a structural map so that concrete
evaluations reduce. -/
def jsToLower (s : String) : String :=
  String.mk (s.toList.map Char.toLower)

/-! ## The Worker (`src/unnamed/part_000`) -/

namespace Worker

/-- Cloudflare KV modelled as an association list; `put` prepends, `get`
returns the most recent value for the key. -/
def KV : Type := List (String × String)

def kvGet (kv : KV) (k : String) : Option String :=
  (kv.find? (fun e => e.1 == k)).map (fun e => e.2)

def kvPut (kv : KV) (k v : String) : KV :=
  (k, v) :: kv

/-- A parsed JSON value (the worker only inspects objects, strings, numbers
and booleans; `undefined` from a missed member access is conflated with
`null`, which has the same truthiness and stringification behaviour at
every use site in the worker). -/
inductive Json where
  | null : Json
  | bool (b : Bool) : Json
  | num (n : Int) : Json
  | str (s : String) : Json
  | arr (elems : List Json) : Json
  | obj (fields : List (String × Json)) : Json

/-- JS truthiness of a JSON value. -/
def truthy : Json → Bool
  | .null => false
  | .bool b => b
  | .num n => n != 0
  | .str s => s != ""
  | .arr _ => true
  | .obj _ => true

/-- JS member access `v.k` (missing member or non-object gives
`undefined`, modelled as `.null`). -/
def jGet : Json → String → Json
  | .obj fields, k =>
    match fields.find? (fun e => e.1 == k) with
    | some e => e.2
    | none => .null
  | _, _ => .null

/-- JS `String(v)` for the values interpolated into the worker's KV key
templates. -/
def jsString : Json → String
  | .null => "null"
  | .bool b => if b then "true" else "false"
  | .num n => toString n
  | .str s => s
  | .arr _ => ""
  | .obj _ => "[object Object]"

/-- JS `String(v || "")`, as in the event-type normalisation. -/
def jsStringOrEmpty (v : Json) : String :=
  if truthy v then jsString v else ""

/-- The XOR accumulation of `timingSafeEqualHex`'s loop (`out |= a[i]^b[i]`),
over two equal-length character lists. -/
def xorFold : List Char → List Char → Nat
  | a :: as, b :: bs => (a.toNat ^^^ b.toNat) ||| xorFold as bs
  | _, _ => 0

/-- `timingSafeEqualHex` from the worker: length check, then a
constant-time XOR comparison. -/
def timingSafeEqualHex (a b : String) : Bool :=
  if a.length ≠ b.length then false
  else xorFold a.toList b.toList == 0

/-- Outcome of `verifySignedJson`: either a rejection response
(status, error message) or the parsed payload. -/
inductive VerifyResult where
  | rejected (status : Nat) (msg : String) : VerifyResult
  | ok (payload : Json) : VerifyResult

/-- `verifySignedJson` from the worker.  `hmac secret body` abstracts the
HMAC-SHA256 hex digest; `parse` abstracts `JSON.parse` (`none` = throw).
`secret` is `env.WEBHOOK_SECRET` (`none` = unset); `xSignature` is the
`X-Signature` header (`none` = absent; an empty header is falsy like an
absent one). -/
def verifySignedJson (hmac : String → String → String) (parse : String → Option Json)
    (secret : Option String) (xSignature : Option String) (bodyText : String) :
    VerifyResult :=
  if ¬ jsStrTruthy xSignature then .rejected 401 "Missing X-Signature"
  else
    let signature := xSignature.getD ""
    if ¬ jsStrTruthy secret then .rejected 500 "Missing WEBHOOK_SECRET in Worker secrets"
    else
      let expectedSig := hmac (secret.getD "") bodyText
      if ¬ timingSafeEqualHex signature expectedSig then .rejected 403 "Invalid signature"
      else
        match parse bodyText with
        | none => .rejected 400 "Invalid JSON"
        | some payload => .ok payload

/-- The `POST /ingest` route: signature verification, required-field
validation, then the three KV writes.  Returns the HTTP status and the
resulting store.  `stringify` abstracts `JSON.stringify` (used only to
produce opaque stored values). -/
def ingestHandler (hmac : String → String → String) (parse : String → Option Json)
    (stringify : Json → String) (secret : Option String) (xSignature : Option String)
    (bodyText : String) (kv : KV) : Nat × KV :=
  match verifySignedJson hmac parse secret xSignature bodyText with
  | .rejected status _ => (status, kv)
  | .ok payload =>
    let guildId := jGet payload "guild_id"
    let puzzle := jGet payload "puzzle"
    if ¬ truthy guildId || ¬ truthy puzzle ||
        ¬ truthy (jGet puzzle "date") || ¬ truthy (jGet puzzle "game") then
      (400, kv)
    else
      let gid := jsString guildId
      let date := jsString (jGet puzzle "date")
      let game := jsString (jGet puzzle "game")
      let key := "guild:" ++ gid ++ ":date:" ++ date ++ ":game:" ++ game
      let kv1 := kvPut kv key (stringify puzzle)
      let kv2 := kvPut kv1 ("guild:" ++ gid ++ ":latest_date") date
      let kv3 := kvPut kv2 ("guild:" ++ gid ++ ":latest_game:" ++ game) (stringify puzzle)
      (200, kv3)

/-- JS `Number(s)` restricted to the decimal-integer strings the counter
subsystem ever stores (optional sign, digits, surrounding whitespace);
every other string (including non-integer numerics, which never occur as
stored counter values) is NaN (`none`).  `Number("")` is `0`. -/
def jsParseNumber (s : String) : Option Int :=
  let t := ((s.toList.dropWhile isJsWs).reverse.dropWhile isJsWs).reverse
  if t.isEmpty then some 0
  else
    let signAndDigits : Int × List Char :=
      match t with
      | '-' :: rest => (-1, rest)
      | '+' :: rest => (1, rest)
      | cs => (1, cs)
    if ¬ signAndDigits.2.isEmpty && signAndDigits.2.all Char.isDigit then
      let mag : Nat := signAndDigits.2.foldl (fun acc c => acc * 10 + (c.toNat - '0'.toNat)) 0
      some (signAndDigits.1 * (mag : Int))
    else none

/-- `Number(raw || 0)` applied to a KV read (`null`/`""` give `0`; a
non-numeric stored value gives NaN, modelled as `none`). -/
def numberOr0 (raw : Option String) : Option Int :=
  match raw with
  | none => some 0
  | some s => if s = "" then some 0 else jsParseNumber s

/-- The five counters of a stats scope, as read by `readStats` (a field is
`none` when the stored value is not numeric, i.e. JS NaN). -/
structure StatsNums where
  views : Option Int
  guesses_total : Option Int
  guessed_correctly : Option Int
  active_players : Option Int
  completed_games : Option Int
deriving DecidableEq, Repr

/-- `readStats` from the worker. -/
def readStats (kv : KV) (scopeKey : String) : StatsNums where
  views := numberOr0 (kvGet kv (scopeKey ++ ":views"))
  guesses_total := numberOr0 (kvGet kv (scopeKey ++ ":guesses_total"))
  guessed_correctly := numberOr0 (kvGet kv (scopeKey ++ ":guessed_correctly"))
  active_players := numberOr0 (kvGet kv (scopeKey ++ ":active_players"))
  completed_games := numberOr0 (kvGet kv (scopeKey ++ ":completed_games"))

/-- `keyFor` inside `bumpStat`: the KV key for one event type in a scope. -/
def statKeyFor (scopeKey : String) : String → Option String
  | "view" => some (scopeKey ++ ":views")
  | "guess" => some (scopeKey ++ ":guesses_total")
  | "guess_correct" => some (scopeKey ++ ":guessed_correctly")
  | "game_complete" => some (scopeKey ++ ":completed_games")
  | _ => none

/-- `bumpStat` from the worker: a non-atomic read-modify-write increment
(`String(Number(raw || 0) + 1)`; incrementing NaN stores `"NaN"`). -/
def bumpStat (kv : KV) (scopeKey : String) (type : String) : KV :=
  match statKeyFor scopeKey type with
  | none => kv
  | some key =>
    match numberOr0 (kvGet kv key) with
    | some current => kvPut kv key (toString (current + 1))
    | none => kvPut kv key "NaN"

/-- `payload.latest === true || payload.latest === 1 || payload.latest === "1"`. -/
def isLatestFlag : Json → Bool
  | .bool true => true
  | .num 1 => true
  | .str "1" => true
  | _ => false

/-- Response of `POST /stats/event`: status, resulting store, and the
reported total/day counters. -/
structure EventResponse where
  status : Nat
  kv : KV
  total : Option StatsNums
  day : Option StatsNums

/-- The body-processing part of `POST /stats/event` (after the optional
write-key gate): type normalisation and validation, scope resolution, and
the two `bumpStat` increments. -/
def statsEventBody (parsed : Option Json) (kv : KV) : EventResponse :=
  match parsed with
  | none => ⟨400, kv, none, none⟩
  | some payload =>
    let rawType := jsToLower (jsStringOrEmpty (jGet payload "type"))
    let type := if rawType = "game_completed" then "game_complete" else rawType
    if ¬ ["view", "guess", "guess_correct", "game_complete"].contains type then
      ⟨400, kv, none, none⟩
    else
      let guildId :=
        if truthy (jGet payload "guild_id") then jsString (jGet payload "guild_id")
        else "global"
      let date0 : Option String :=
        if truthy (jGet payload "date") then some (jsString (jGet payload "date"))
        else none
      let wantsLatest := isLatestFlag (jGet payload "latest")
      let date : Option String :=
        match date0 with
        | some d => some d
        | none =>
          if wantsLatest && guildId != "global" then
            match kvGet kv ("guild:" ++ guildId ++ ":latest_date") with
            | some latest => if latest != "" then some latest else none
            | none => none
          else none
      let totalKey := "stats:guild:" ++ guildId ++ ":total"
      let dayKey := date.map (fun d => "stats:guild:" ++ guildId ++ ":date:" ++ d)
      let kv1 := bumpStat kv totalKey type
      let kv2 := match dayKey with
        | some k => bumpStat kv1 k type
        | none => kv1
      ⟨200, kv2, some (readStats kv2 totalKey), dayKey.map (readStats kv2)⟩

/-- The `POST /stats/event` route.  `writeKey` is `env.STATS_WRITE_KEY`,
`authHeader` the `Authorization` header, `parsed` the result of
`request.json()` (`none` = malformed body). -/
def statsEventHandler (writeKey : Option String) (authHeader : Option String)
    (parsed : Option Json) (kv : KV) : EventResponse :=
  if jsStrTruthy writeKey then
    if authHeader.getD "" ≠ "Bearer " ++ writeKey.getD "" then
      ⟨401, kv, none, none⟩
    else statsEventBody parsed kv
  else statsEventBody parsed kv

/-- Response of `GET /stats` (the fields the front end reads, including the
back-compat aliases). -/
structure GetStatsResponse where
  scope : String
  guessed_correctly : Option Int
  played_all : Option Int
  stats : StatsNums
deriving DecidableEq, Repr

/-- The `GET /stats` route over query parameters `guild_id`, `date`,
`latest`. -/
def statsGetHandler (kv : KV) (guildIdParam dateParam latestParam : Option String) :
    GetStatsResponse :=
  let guildId := jsOrOptStr guildIdParam "global"
  let wantsLatest := latestParam == some "1"
  let date0 : Option String :=
    match dateParam with
    | some d => if d != "" then some d else none
    | none => none
  let date : Option String :=
    if wantsLatest && guildId != "global" then
      match kvGet kv ("guild:" ++ guildId ++ ":latest_date") with
      | some latest => if latest != "" then some latest else date0
      | none => date0
    else date0
  let scopeKey :=
    match date with
    | some d => "stats:guild:" ++ guildId ++ ":date:" ++ d
    | none => "stats:guild:" ++ guildId ++ ":total"
  let stats := readStats kv scopeKey
  { scope := if date.isSome then "guild_day" else "guild_total"
    guessed_correctly := stats.guessed_correctly
    played_all := stats.completed_games
    stats := stats }

end Worker


/-! ## The bot (`src/index.js`) -/

namespace Bot

/-- Length bound for `dropWhile`, used by the termination proofs of the
regex-replacement scanners below. -/
theorem length_dropWhile_le {α : Type} (p : α → Bool) (l : List α) :
    (l.dropWhile p).length ≤ l.length := by
  have h := List.takeWhile_append_dropWhile p l
  calc (l.dropWhile p).length ≤ (l.takeWhile p).length + (l.dropWhile p).length := by omega
    _ = l.length := by rw [← List.length_append, h]

/-- A Discord attachment (the fields the bot reads). -/
structure Attachment where
  name : Option String
  contentType : Option String
  url : String
  size : Nat
deriving DecidableEq, Repr

/-- A Discord message (the fields the bot reads).  `mentionsCount` models
`m.mentions.users.size` and `reactionsCount` models `m.reactions.cache.size`;
`channelParentName` models `m.channel.parent?.name`. -/
structure Msg where
  id : Nat
  authorId : String
  createdTimestamp : Int
  content : String
  mentionsCount : Nat
  reactionsCount : Nat
  attachments : List Attachment
  channelParentName : Option String
deriving DecidableEq, Repr

/-- A guild member (the fields the bot reads; `createdTimestamp` is the
account-creation time `member.user.createdTimestamp`). -/
structure Member where
  userId : String
  nickname : Option String
  globalName : Option String
  username : String
  createdTimestamp : Int
deriving DecidableEq, Repr

/-- A readable text channel: its `lastMessageId` and its full message
history, newest first (the order `channel.messages.fetch` pages through). -/
structure Channel where
  lastMessageId : Option String
  messages : List Msg
deriving DecidableEq, Repr

/-- Association-list lookup (JS `Map.get` / object indexing). -/
def alistGet {α : Type} (m : List (String × α)) (k : String) : Option α :=
  (m.find? (fun e => e.1 == k)).map (fun e => e.2)

/-- The digit-and-close part of the regex `<@!?\\d+>`: a nonempty digit
run then `>`; returns the remainder after the match.  (`\\d+` is greedy
and `>` is not a digit, so the maximal digit run is the only candidate.) -/
def matchMentionDigits (cs : List Char) : Option (List Char) :=
  if (cs.takeWhile Char.isDigit).isEmpty then none
  else
    match cs.dropWhile Char.isDigit with
    | '>' :: r => some r
    | _ => none

theorem matchMentionDigits_length (cs r : List Char) (h : matchMentionDigits cs = some r) :
    r.length < cs.length := by
  unfold matchMentionDigits at h
  split at h
  · exact absurd h (by simp)
  · split at h
    · rename_i heq
      have h1 := length_dropWhile_le Char.isDigit cs
      rw [heq] at h1
      simp only [Option.some.injEq] at h
      subst h
      simp only [List.length_cons] at h1
      omega
    · exact absurd h (by simp)

/-- Match of the regex `<@!?\\d+>` immediately after a consumed `<`:
optional `!`, digits, `>`; returns the remainder of the input after the
match.  (When `!` is present, the branch that skips it would have to match
`\\d+` against `!`, which fails, so the match is deterministic.) -/
def matchMentionTag : List Char → Option (List Char)
  | '@' :: '!' :: rest => matchMentionDigits rest
  | '@' :: rest => matchMentionDigits rest
  | _ => none

theorem matchMentionTag_length (cs r : List Char) (h : matchMentionTag cs = some r) :
    r.length < cs.length := by
  unfold matchMentionTag at h
  split at h
  · rename_i rest
    have := matchMentionDigits_length rest r h
    simp only [List.length_cons]
    omega
  · rename_i rest _
    have := matchMentionDigits_length _ r h
    simp only [List.length_cons]
    omega
  · exact absurd h (by simp)


/-- Global replacement of `/<@!?\d+>/g` with `[mention]` (first step of
`anonymizeText`), with structural fuel so that concrete evaluations
reduce; every step consumes at least one character
(`matchMentionTag_length`), so `length + 1` fuel is always enough. -/
def replaceMentionTagF : Nat → List Char → List Char
  | 0, _ => []
  | _ + 1, [] => []
  | fuel + 1, c :: rest =>
    if c == '<' then
      match matchMentionTag rest with
      | some r => "[mention]".toList ++ replaceMentionTagF fuel r
      | none => c :: replaceMentionTagF fuel rest
    else c :: replaceMentionTagF fuel rest

def replaceMentionTag (cs : List Char) : List Char :=
  replaceMentionTagF (cs.length + 1) cs

/-- Global replacement of `/@\w+/g` with `[mention]` (second step of
`anonymizeText`; `\w+` is greedy, so the maximal word-character run is
consumed).  Structural fuel as in `replaceMentionTagF`. -/
def replaceAtMentionF : Nat → List Char → List Char
  | 0, _ => []
  | _ + 1, [] => []
  | fuel + 1, c :: rest =>
    if c == '@' && ¬ (rest.takeWhile isJsWordChar).isEmpty then
      "[mention]".toList ++ replaceAtMentionF fuel (rest.dropWhile isJsWordChar)
    else c :: replaceAtMentionF fuel rest

def replaceAtMention (cs : List Char) : List Char :=
  replaceAtMentionF (cs.length + 1) cs

/-- Global replacement of `/\s+/g` with a single space (structural fuel
as above). -/
def collapseWsF : Nat → List Char → List Char
  | 0, _ => []
  | _ + 1, [] => []
  | fuel + 1, c :: rest =>
    if isJsWs c then ' ' :: collapseWsF fuel (rest.dropWhile isJsWs)
    else c :: collapseWsF fuel rest

def collapseWs (cs : List Char) : List Char :=
  collapseWsF (cs.length + 1) cs

/-- JS `String.prototype.trim`. -/
def jsTrim (cs : List Char) : List Char :=
  ((cs.dropWhile isJsWs).reverse.dropWhile isJsWs).reverse

/-- `anonymizeText` from the bot: mention scrubbing, whitespace collapse,
trim. -/
def anonymizeText (s : String) : String :=
  String.mk (jsTrim (collapseWs (replaceAtMention (replaceMentionTag s.toList))))

/-- The maximal non-whitespace runs of a character list.  This is exactly
the bot's `text.split(/(\s+)/).filter(Boolean)` followed by the filter
that drops whitespace tokens (`pureWords` in `scrambleWords`): the
capturing split yields the alternating maximal whitespace/non-whitespace
runs, and the two filters keep precisely the non-whitespace ones. -/
def wordRunsF : Nat → List Char → List (List Char)
  | 0, _ => []
  | _ + 1, [] => []
  | fuel + 1, c :: rest =>
    if isJsWs c then wordRunsF fuel rest
    else (c :: rest.takeWhile (fun d => ¬ isJsWs d)) ::
      wordRunsF fuel (rest.dropWhile (fun d => ¬ isJsWs d))

def wordRuns (cs : List Char) : List (List Char) :=
  wordRunsF (cs.length + 1) cs

/-- The in-place swap `[a[i], a[j]] = [a[j], a[i]]` on a list (identity if
either index is out of range, which the shuffle never produces). -/
def listSwap {α : Type} (l : List α) (i j : Nat) : List α :=
  match l.get? i, l.get? j with
  | some a, some b => (l.set i b).set j a
  | _, _ => l

/-- The Fisher–Yates loop of `scrambleWords`: at index `i` (descending,
stopping before 0) swap with index `rand i % (i+1)`, the model of
`Math.floor(Math.random() * (i + 1))` for an arbitrary random outcome. -/
def fyLoop {α : Type} (rand : Nat → Nat) : List α → Nat → List α
  | l, 0 => l
  | l, i + 1 => fyLoop rand (listSwap l (i + 1) (rand (i + 1) % (i + 2))) i

/-- `Array.prototype.join(' ')`. -/
def joinSpace : List (List Char) → List Char
  | [] => []
  | [w] => w
  | w :: ws => w ++ ' ' :: joinSpace ws

/-- `scrambleWords` from the bot: shuffle the non-whitespace tokens and
join with single spaces. -/
def scrambleWords (rand : Nat → Nat) (text : String) : String :=
  let pureWords := wordRuns text.toList
  String.mk (joinSpace (fyLoop rand pureWords (pureWords.length - 1)))

/-- `lit` followed by at least one non-whitespace character (the shape
`lit\S+` shared by the URL and invite regexes). -/
def litThenNonWs (lit : List Char) (cs : List Char) : Bool :=
  lit.isPrefixOf cs &&
    (match cs.drop lit.length with
     | [] => false
     | c :: _ => ¬ isJsWs c)

/-- Match of `(https?:\/\/\S+|www\.\S+)` at the head of the input
(already lower-cased; the regex is case-insensitive). -/
def urlPatternAt (cs : List Char) : Bool :=
  litThenNonWs "http://".toList cs || litThenNonWs "https://".toList cs ||
    litThenNonWs "www.".toList cs

/-- Match of `\bdiscord\.gg\/\S+|\bdiscord\.com\/invite\/\S+` at
the head of the input, given the preceding character (`none` = start).
`d` is a word character, so `\b` here means the previous character is not
one. -/
def invitePatternAt (pre : Option Char) (cs : List Char) : Bool :=
  (match pre with
   | none => true
   | some p => ¬ isJsWordChar p) &&
    (litThenNonWs "discord.gg/".toList cs || litThenNonWs "discord.com/invite/".toList cs)

/-- The TLD alternation of the bare-domain regex, in source order. -/
def tldList : List String :=
  ["com", "net", "org", "io", "gg", "co", "edu", "gov", "uk", "ca", "de", "fr", "jp",
   "tv", "me", "app", "dev", "ai", "xyz", "info", "biz", "ly", "to", "us", "ru", "br",
   "in", "au", "nl", "se", "no", "fi", "dk", "es", "it", "pt", "pl", "cz", "ch", "be", "at"]

/-- The character class `[a-z0-9-]` of the bare-domain regex (input is
already lower-cased). -/
def isLabelChar (c : Char) : Bool :=
  ('a' ≤ c && c ≤ 'z') || c.isDigit || c == '-'

/-- Some TLD alternative followed by a word boundary at the head of the
input. -/
def tldAt (cs : List Char) : Bool :=
  tldList.any (fun t =>
    t.toList.isPrefixOf cs &&
      (match cs.drop t.toList.length with
       | [] => true
       | c :: _ => ¬ isJsWordChar c))

/-- The `(?:[a-z0-9-]+\.)+(?:TLDs)\b` part of the bare-domain regex:
after each `label.` repetition (the label run is maximal because `.` is
not a label character), try the TLD alternation — this enumerates every
backtracking opportunity of the `+` group.  Fuel bounds the recursion; the
caller passes more fuel than the input length, which is always enough
since each step consumes at least two characters. -/
def domainTailAt : Nat → List Char → Bool
  | 0, _ => false
  | fuel + 1, cs =>
    if (cs.takeWhile isLabelChar).isEmpty then false
    else
      match cs.dropWhile isLabelChar with
      | '.' :: rest => tldAt rest || domainTailAt fuel rest
      | _ => false

/-- Match of the bare-domain regex at the head of the input, given the
preceding character.  The leading `\b` depends on whether the first
matched character is a word character (`-` is in `[a-z0-9-]` but not in
`\w`). -/
def domainPatternAt (pre : Option Char) (cs : List Char) : Bool :=
  match cs with
  | [] => false
  | c :: _ =>
    isLabelChar c &&
      (if isJsWordChar c then
        (match pre with
         | none => true
         | some p => ¬ isJsWordChar p)
      else
        (match pre with
         | none => false
         | some p => isJsWordChar p)) &&
      domainTailAt (cs.length + 1) cs

/-- Scan every position of the input (with the preceding character) for a
match of `p` — the `∃ match` semantics of `RegExp.test`. -/
def scanPrev (p : Option Char → List Char → Bool) : Option Char → List Char → Bool
  | pre, [] => p pre []
  | pre, c :: rest => p pre (c :: rest) || scanPrev p (some c) rest

/-- `containsUrlLike` from the bot: the URL, invite and bare-domain
heuristics (all case-insensitive, modelled by lower-casing the input). -/
def containsUrlLike (text : String) : Bool :=
  if text == "" then false
  else
    let lc := (jsToLower text).toList
    if scanPrev (fun _ s => urlPatternAt s) none lc then true
    else if scanPrev invitePatternAt none lc then true
    else scanPrev domainPatternAt none lc


/-- `getUTCHours` of a JS `Date` at `ms` since the epoch. -/
def getUTCHours (ms : Int) : Int :=
  (ms.ediv 3600000).emod 24

/-- `bucketTime` from the bot (over the date's epoch milliseconds). -/
def bucketTime (ms : Int) : String :=
  let hour := getUTCHours ms
  if 5 ≤ hour ∧ hour < 12 then "Morning"
  else if 12 ≤ hour ∧ hour < 17 then "Afternoon"
  else if 17 ≤ hour ∧ hour < 22 then "Evening"
  else "Night"

def msPerYear : Int := 1000 * 60 * 60 * 24 * 365

/-- `accountAgeRange` from the bot.  The source compares the float
`(Date.now() - createdAt) / msPerYear` against 1, 2 and 4; for
millisecond-scale integers (exact in a double, and never within a double
ulp of the thresholds) this agrees with the integer comparisons below. -/
def accountAgeRange (nowMs createdAtMs : Int) : String :=
  let diff := nowMs - createdAtMs
  if diff < msPerYear then "Less than 1 year"
  else if diff < 2 * msPerYear then "1–2 years"
  else if diff < 4 * msPerYear then "2–4 years"
  else "4+ years"

/-- The stop-word set of `topNonCommonWord`, in source order. -/
def stopWords : List String :=
  ["the", "be", "to", "of", "and", "a", "in", "that", "have", "i", "it", "for", "not",
   "on", "with", "he", "as", "you", "do", "at", "this", "but", "his", "by", "from",
   "they", "we", "say", "her", "she", "or", "an", "will", "my", "one", "all", "would",
   "there", "their", "what", "so", "up", "out", "if", "about", "who", "get", "which",
   "go", "me", "when", "make", "can", "like", "time", "no", "just", "him", "know",
   "take", "people", "into", "year", "your", "good", "some", "could", "them", "see",
   "other", "than", "then", "now", "look", "only", "come", "its", "over", "think",
   "also", "back", "after", "use", "two", "how", "our", "work", "first", "well",
   "way", "even", "new", "want", "because", "any", "these", "give", "day", "most",
   "us", "lol", "yeah", "yay", "nah", "nahhh", "hello", "hi"]

/-- The word extraction shared by `topNonCommonWord` and the stat builder:
`content.toLowerCase().replace(/[^a-z0-9' ]+/g, ' ').split(/\s+/).filter(Boolean)`.
Replacing each disallowed character by a space (rather than each run by one
space) yields the same tokens, since the split discards empty pieces; after
the replacement the only whitespace left is the space itself. -/
def extractContentWords (content : String) : List String :=
  let cleaned := (jsToLower content).toList.map (fun c =>
    if ('a' ≤ c && c ≤ 'z') || c.isDigit || c == '\'' then c else ' ')
  (wordRuns cleaned).map String.mk

/-- One `freq[w] = (freq[w] || 0) + 1` step on an insertion-ordered
frequency table (JS object literal; none of the counted words is an
integer-like key, those are filtered out before insertion, so insertion
order is preserved). -/
def bumpFreq (freq : List (String × Nat)) (w : String) : List (String × Nat) :=
  match freq with
  | [] => [(w, 1)]
  | e :: rest => if e.1 == w then (e.1, e.2 + 1) :: rest else e :: bumpFreq rest w

/-- `topNonCommonWord` from the bot: frequency table over the extracted
words (skipping pure-digit words, long digit-bearing words, stop words and
words of length ≤ 2), stably sorted by descending count; the head wins. -/
def topNonCommonWord (messages : List Msg) : Option String :=
  let freq := messages.foldl (fun freq m =>
    (extractContentWords m.content).foldl (fun freq w =>
      if ¬ w.toList.isEmpty && w.toList.all Char.isDigit then freq
      else if 15 ≤ w.length && w.toList.any Char.isDigit then freq
      else if ¬ stopWords.contains w && 2 < w.length then bumpFreq freq w
      else freq) freq) []
  let entries := List.insertionSort (fun a b => b.2 ≤ a.2) freq
  match entries with
  | [] => none
  | e :: _ => some e.1

/-- `getDisplayName`: nickname, else global name, else username (JS `||`,
so empty strings fall through). -/
def getDisplayName (m : Member) : String :=
  jsOrOptStr m.nickname (jsOrOptStr m.globalName m.username)

def imageExts : List String := ["png", "jpg", "jpeg", "gif", "webp"]

/-- JS `String.prototype.split` against a single-character class: split at
every separator occurrence, keeping empty pieces. -/
def splitOnPred (p : Char → Bool) : List Char → List (List Char)
  | [] => [[]]
  | c :: rest =>
    if p c then [] :: splitOnPred p rest
    else
      match splitOnPred p rest with
      | seg :: segs => (c :: seg) :: segs
      | [] => [[c]]

/-- `attachment.name.split('.').pop().toLowerCase()` (for a name without a
dot this is the whole name, as in the source). -/
def extOfFileName (n : String) : String :=
  jsToLower (String.mk ((splitOnPred (fun c => c == '.') n.toList).getLastD []))

/-- `hasImageAttachment` from the bot (only the first attachment is
examined). -/
def hasImageAttachment (m : Msg) : Bool :=
  match m.attachments with
  | [] => false
  | a :: _ =>
    let ext := if jsStrTruthy a.name then extOfFileName (a.name.getD "") else ""
    if imageExts.contains ext then true
    else
      match a.contentType with
      | some ct => ct != "" && ct.startsWith "image"
      | none => false

/-- Proleptic-Gregorian civil date from days since 1970-01-01
(the arithmetic behind `Date.prototype.toISOString`). -/
def civilFromDays (z0 : Int) : Int × Int × Int :=
  let z := z0 + 719468
  let era := z.ediv 146097
  let doe := z.emod 146097
  let yoe := (doe - doe.ediv 1460 + doe.ediv 36524 - doe.ediv 146096).ediv 365
  let y := yoe + era * 400
  let doy := doe - (365 * yoe + yoe.ediv 4 - yoe.ediv 100)
  let mp := (5 * doy + 2).ediv 153
  let d := doy - (153 * mp + 2).ediv 5 + 1
  let m := mp + (if mp < 10 then 3 else -9)
  (if m ≤ 2 then y + 1 else y, m, d)

def pad2 (n : Int) : String :=
  if n < 10 then "0" ++ toString n else toString n

def isoDateFromDays (z : Int) : String :=
  match civilFromDays z with
  | (y, m, d) => toString y ++ "-" ++ pad2 m ++ "-" ++ pad2 d

/-- `new Date(ms).toISOString().slice(0, 10)`. -/
def isoDateOfMs (ms : Int) : String :=
  isoDateFromDays (ms.ediv 86400000)

/-- A UTC day range as produced by `getDayRangeUtc`. -/
structure DayRange where
  startMs : Int
  endMs : Int
  dateLabel : String
deriving DecidableEq, Repr

/-- `getDayRangeUtc` from the bot: midnight-to-midnight UTC day at the
given offset from the current UTC day, with its ISO calendar date. -/
def getDayRangeUtc (nowMs : Int) (offsetDays : Int) : DayRange :=
  let todayStart := nowMs.ediv 86400000 * 86400000
  let start := todayStart + offsetDays * 24 * 60 * 60 * 1000
  { startMs := start
    endMs := start + 24 * 60 * 60 * 1000 - 1
    dateLabel := isoDateOfMs start }

/-- One `channel.messages.fetch({ limit, before })` against the modelled
history: up to `limit` messages with id below `before`, newest first. -/
def fetchPage (history : List Msg) (beforeId : Option Nat) (limit : Nat) : List Msg :=
  (match beforeId with
   | none => history
   | some b => history.filter (fun m => m.id < b)).take limit

/-- The inner page loop of `fetchMessagesInRange`: keep messages inside
`[startTs, endTs]`, stop the whole fetch at the first message older than
`startTs`. -/
def scanPage : List Msg → Int → Int → List Msg × Bool
  | [], _, _ => ([], false)
  | m :: rest, startTs, endTs =>
    if m.createdTimestamp < startTs then ([], true)
    else
      let r := scanPage rest startTs endTs
      (if m.createdTimestamp ≤ endTs && startTs ≤ m.createdTimestamp then m :: r.1 else r.1,
        r.2)

/-- The paging loop of `fetchMessagesInRange`.  The fuel bounds the loop;
the caller passes `history.length + 1`, which suffices for any history
with strictly decreasing ids (the live Discord guarantee), since every
continued iteration consumes a full page of 100 messages. -/
def fetchRangeLoop (history : List Msg) (startTs endTs : Int) :
    Nat → Option Nat → List Msg → List Msg
  | 0, _, acc => acc
  | fuel + 1, lastId, acc =>
    let fetched := fetchPage history lastId 100
    if fetched.isEmpty then acc
    else
      let scanned := scanPage fetched startTs endTs
      let acc2 := acc ++ scanned.1
      if scanned.2 then acc2
      else if fetched.length < 100 then acc2
      else fetchRangeLoop history startTs endTs fuel ((fetched.getLast?).map (fun m => m.id)) acc2

/-- `fetchMessagesInRange` from the bot. -/
def fetchMessagesInRange (ch : Channel) (startTs endTs : Int) : List Msg :=
  fetchRangeLoop ch.messages startTs endTs (ch.messages.length + 1) none []

/-- One step of building the `messagesByUser` map (a JS `Map`, so keys are
in insertion order and each author's messages in encounter order). -/
def addToGroup (g : List (String × List Msg)) (m : Msg) : List (String × List Msg) :=
  match g with
  | [] => [(m.authorId, [m])]
  | e :: rest =>
    if e.1 == m.authorId then (e.1, e.2 ++ [m]) :: rest else e :: addToGroup rest m

def groupByAuthor (msgs : List Msg) : List (String × List Msg) :=
  msgs.foldl addToGroup []

/-- The `{ allMessages, messagesByUser }` pair returned by the collectors
and by `filterMessagesByOptIn`. -/
structure FilteredSample where
  allMessages : List Msg
  messagesByUser : List (String × List Msg)
deriving DecidableEq, Repr

/-- `collectMessagesForRange` from the bot (concatenation over channels in
order; the per-channel grouping in the source is the same fold over the
same message order). -/
def collectMessagesForRange (channels : List Channel) (startTs endTs : Int) :
    FilteredSample :=
  let allMessages := (channels.map (fun ch => fetchMessagesInRange ch startTs endTs)).flatten
  ⟨allMessages, groupByAuthor allMessages⟩

/-- `filterMessagesByOptIn` from the bot. -/
def filterMessagesByOptIn (allMessages : List Msg) (optedInSet : List String) :
    FilteredSample :=
  let filtered := allMessages.filter (fun m => optedInSet.contains m.authorId)
  ⟨filtered, groupByAuthor filtered⟩

/-- `toSnowflake` inside `getChannelScanList`: `BigInt(id)` with `0n` for a
falsy or unparsable id. -/
def toSnowflake (id : Option String) : Nat :=
  match id with
  | none => 0
  | some s =>
    if s != "" && s.toList.all Char.isDigit then
      s.toList.foldl (fun acc c => acc * 10 + (c.toNat - '0'.toNat)) 0
    else 0

/-- `getChannelScanList` from the bot: channels sorted by last-message
snowflake, most recent first (a stable sort, modelling JS `Array.sort`). -/
def getChannelScanList (channels : List Channel) : List Channel :=
  List.insertionSort
    (fun a b => toSnowflake b.lastMessageId ≤ toSnowflake a.lastMessageId) channels


/-- The options object of `collectRecentOptInMessages` (all call sites pass
every field explicitly). -/
structure ScanOptions where
  perPage : Nat
  maxPages : Nat
  totalLimit : Nat
  minMessageCount : Nat
  maxTotalFetches : Nat
  shouldInclude : Option (Msg → Bool)

/-- Ghost record of one page fetch performed by the scan: which channel
(by scan-order index) and how many messages had been collected before the
fetch. -/
structure FetchEvent where
  channelIdx : Nat
  collectedBefore : Nat
deriving DecidableEq, Repr

/-- The mutable state of the scan loop (`collected`, `fetches`), the ghost
trace of page fetches, and the `break scanLoop` flag. -/
structure ScanState where
  collected : List Msg
  fetches : Nat
  trace : List FetchEvent
  stopAll : Bool

/-- The per-message retention test of the scan:
`optedInSet.has(msg.author.id)` and the optional `shouldInclude`
predicate. -/
def msgIncluded (opts : ScanOptions) (optedInSet : List String) (m : Msg) : Bool :=
  optedInSet.contains m.authorId &&
    (match opts.shouldInclude with
     | some p => p m
     | none => true)

/-- The per-channel page loop of `collectRecentOptInMessages` (the
recursion counts remaining pages down from `maxPages`).  The branch order
mirrors the source: loop conditions, total-fetch budget (`break
scanLoop`), fetch, empty-page break, retention filter, partial-page
break, then the min-target `break scanLoop` — note the last two are in
this order, so a partial page breaks only the channel even when the
min target is already met. -/
def scanChannelPages (opts : ScanOptions) (optedInSet : List String) (minTarget : Nat)
    (ch : Channel) (chIdx : Nat) : Nat → Option Nat → ScanState → ScanState
  | 0, _, st => st
  | pagesLeft + 1, lastId, st =>
    if opts.totalLimit ≤ st.collected.length then st
    else if opts.maxTotalFetches ≤ st.fetches then { st with stopAll := true }
    else
      let fetched := fetchPage ch.messages lastId opts.perPage
      let st1 : ScanState :=
        { st with
          fetches := st.fetches + 1
          trace := st.trace ++ [⟨chIdx, st.collected.length⟩] }
      if fetched.isEmpty then st1
      else
        let st2 : ScanState :=
          { st1 with collected := st1.collected ++ fetched.filter (msgIncluded opts optedInSet) }
        if fetched.length < opts.perPage then st2
        else if minTarget ≤ st2.collected.length then { st2 with stopAll := true }
        else scanChannelPages opts optedInSet minTarget ch chIdx pagesLeft
          ((fetched.getLast?).map (fun m => m.id)) st2

/-- The outer channel loop of `collectRecentOptInMessages`; a set
`stopAll` flag (the source's labelled `break scanLoop`) skips every
remaining channel. -/
def scanChannels (opts : ScanOptions) (optedInSet : List String) (minTarget : Nat) :
    List Channel → Nat → ScanState → ScanState
  | [], _, st => st
  | ch :: rest, idx, st =>
    if st.stopAll then st
    else scanChannels opts optedInSet minTarget rest (idx + 1)
      (scanChannelPages opts optedInSet minTarget ch idx opts.maxPages none st)

/-- The scan loop of `collectRecentOptInMessages` before the final
sort/trim, starting from the sorted channel list and an empty state. -/
def collectRecentOptInMessagesCore (channels : List Channel) (optedInSet : List String)
    (opts : ScanOptions) : ScanState :=
  scanChannels opts optedInSet (min opts.minMessageCount opts.totalLimit)
    (getChannelScanList channels) 0 ⟨[], 0, [], false⟩

/-- The `{ allMessages, messagesByUser, dateLabel }` result of the
fallback collectors. -/
structure SampleResult where
  allMessages : List Msg
  messagesByUser : List (String × List Msg)
  dateLabel : Option String
deriving DecidableEq, Repr

/-- `collectRecentOptInMessages` from the bot: bounded scan, then sort
newest-first (a stable sort, modelling JS `Array.sort`), trim to `totalLimit`
(`totalLimit ? slice : all`, so a zero limit means no trim), group, and
derive the date label from the newest retained message. -/
def collectRecentOptInMessages (channels : List Channel) (optedInSet : List String)
    (opts : ScanOptions) : SampleResult :=
  let st := collectRecentOptInMessagesCore channels optedInSet opts
  let sorted := List.insertionSort (fun a b => b.createdTimestamp ≤ a.createdTimestamp) st.collected
  let trimmed := if opts.totalLimit == 0 then sorted else sorted.take opts.totalLimit
  ⟨trimmed, groupByAuthor trimmed,
    match trimmed with
    | [] => none
    | m :: _ => some (isoDateOfMs m.createdTimestamp)⟩

/-- `getNewestMessageDateLabel` from the bot (`reduce` keeps the later
element on timestamp ties, as the `>` comparison does). -/
def getNewestMessageDateLabel (messages : List Msg) (fallbackLabel : String) : String :=
  match messages with
  | [] => fallbackLabel
  | m :: rest =>
    isoDateOfMs
      ((rest.foldl (fun a b => if b.createdTimestamp < a.createdTimestamp then a else b) m).createdTimestamp)


/-- The per-member activity profile of the metrics map. -/
structure ActivityMetrics where
  messageCount : Nat
  topWord : Option String
  activeWindow : String
  mentions : Nat
  firstMessageBucket : Option String
  accountAgeRange : Option String
deriving DecidableEq, Repr

/-- `Math.min` over a nonempty hour list (the `[]` case is unreachable at
every call site). -/
def listMinI : List Int → Int
  | [] => 0
  | h :: t => t.foldl min h

def listMaxI : List Int → Int
  | [] => 0
  | h :: t => t.foldl max h

/-- The clue block of a `friendle_daily` puzzle. -/
structure FriendleClues where
  messages_yesterday : String
  top_word : String
  active_window : String
  mentions : Nat
  first_message_bucket : String
  account_age_range : String
deriving DecidableEq, Repr

structure FriendlePuzzle where
  game : String
  date : String
  solution_user_id : String
  clues : FriendleClues
  solution_user_name : Option String
  solution_metrics : Option ActivityMetrics
deriving DecidableEq, Repr

/-- `buildFriendlePayload` from the bot.  `rand` models the uniform index
draw; an index into an empty candidate list models the `null` return.
`optInUsers` is the global `storage.optInUsers` list the source closes
over. -/
def buildFriendlePayload (optInUsers : List String)
    (messagesByUser : List (String × List Msg)) (membersMap : List (String × Member))
    (dateLabel : String) (nowMs : Int) (rand : Nat) : Option FriendlePuzzle :=
  let candidateEntries := messagesByUser.filter
    (fun e => optInUsers.contains e.1 && ¬ e.2.isEmpty)
  match candidateEntries.get? (rand % candidateEntries.length) with
  | none => none
  | some entry =>
    match h : entry.2 with
    | [] => none
    | m0 :: rest =>
      let userId := entry.1
      let msgs := m0 :: rest
      let member := alistGet membersMap userId
      let messageCount := msgs.length
      let topWord := topNonCommonWord msgs
      let hours := msgs.map (fun m => getUTCHours m.createdTimestamp)
      let minHour := listMinI hours
      let maxHour := listMaxI hours
      let activeWindow :=
        bucketTime (minHour * 3600 * 1000) ++ " — " ++ bucketTime (maxHour * 3600 * 1000)
      let mentions := msgs.foldl (fun acc m => acc + m.mentionsCount) 0
      let firstMsg :=
        rest.foldl (fun a b => if a.createdTimestamp < b.createdTimestamp then a else b) m0
      some
        { game := "friendle_daily"
          date := dateLabel
          solution_user_id := userId
          clues :=
            { messages_yesterday := toString (max 1 messageCount) ++ " messages"
              top_word := jsOrOptStr topWord "None"
              active_window := jsOrStr activeWindow "Not active"
              mentions := mentions
              first_message_bucket := jsOrStr (bucketTime firstMsg.createdTimestamp) "Not active"
              account_age_range :=
                match member with
                | some mem => accountAgeRange nowMs mem.createdTimestamp
                | none => "Unknown" }
          solution_user_name := none
          solution_metrics := none }

/-- `buildFallbackFriendleFromMetrics` from the bot (the terminal fallback
that synthesises a `friendle_daily` puzzle from the metrics map alone). -/
def buildFallbackFriendleFromMetrics (optedInMembers : List String)
    (membersMap : List (String × Member)) (metricsMap : List (String × ActivityMetrics))
    (dateLabel : String) (nowMs : Int) (rand : Nat) : Option FriendlePuzzle :=
  match optedInMembers.get? (rand % optedInMembers.length) with
  | none => none
  | some userId =>
    let metrics := alistGet metricsMap userId
    let member := alistGet membersMap userId
    let messageCount : Nat :=
      match metrics with
      | some mt => mt.messageCount
      | none => 0
    some
      { game := "friendle_daily"
        date := dateLabel
        solution_user_id := userId
        clues :=
          { messages_yesterday := toString messageCount ++ " messages"
            top_word := jsOrOptStr (metrics.bind (fun mt => mt.topWord)) "None"
            active_window :=
              jsOrStr (match metrics with
                | some mt => mt.activeWindow
                | none => "") "Not active"
            mentions :=
              match metrics with
              | some mt => mt.mentions
              | none => 0
            first_message_bucket :=
              jsOrOptStr (metrics.bind (fun mt => mt.firstMessageBucket)) "Not active"
            account_age_range :=
              jsOrOptStr (metrics.bind (fun mt => mt.accountAgeRange))
                (match member with
                 | some mem => accountAgeRange nowMs mem.createdTimestamp
                 | none => "Unknown") }
        solution_user_name := none
        solution_metrics := none }

/-- `pickRandomMessage` from the bot (an index into an empty list models
the `null` return). -/
def pickRandomMessage (messages : List Msg) (rand : Nat) : Option Msg :=
  messages.get? (rand % messages.length)

/-- The `longMsgs` filter of the quote builder: content present, at least
the configured minimum length, and not URL-like. -/
def longMsgsOf (minQuoteLength : Nat) (allMessages : List Msg) : List Msg :=
  (allMessages.filter (fun m => m.content != "" && minQuoteLength ≤ m.content.length)).filter
    (fun m => ¬ containsUrlLike m.content)

/-- The character class kept by `normalizeQuoteForHash`
(`[^\p{L}\p{N}\s']` is removed).  `Char.isAlpha`/`Char.isDigit` are the
ASCII fragment of the Unicode classes; the repository's content checks are
ASCII. -/
def keepQuoteChar (c : Char) : Bool :=
  c.isAlpha || c.isDigit || isJsWs c || c == '\''

/-- `normalizeQuoteForHash` from the bot: anonymize, lower-case, collapse
whitespace, strip to letters/digits/whitespace/apostrophe, trim. -/
def normalizeQuoteForHash (s : String) : String :=
  String.mk (jsTrim ((collapseWs (jsToLower (anonymizeText s)).toList).filter keepQuoteChar))

structure QuotelePuzzle where
  game : String
  date : String
  solution_user_id : String
  quote_scrambled : String
  quote_original : String
  quote_hash : String
  message_span : Nat
  time_bucket : String
  channel_category : Option String
  min_chars : Nat
  solution_user_name : Option String
deriving DecidableEq, Repr

/-- `buildQuotelePayload` from the bot.  `sha256Hex` abstracts the SHA-256
hex digest; `randPick` the candidate draw; `randShuffle` the word
shuffle. -/
def buildQuotelePayload (sha256Hex : String → String) (minQuoteLength : Nat)
    (allMessages : List Msg) (dateLabel : String) (randPick : Nat)
    (randShuffle : Nat → Nat) : Option QuotelePuzzle :=
  let longMsgs := longMsgsOf minQuoteLength allMessages
  match pickRandomMessage longMsgs randPick with
  | none => none
  | some msg =>
    let originalClean := anonymizeText msg.content
    let originalNorm := normalizeQuoteForHash originalClean
    if originalNorm = "" || originalNorm.length < 10 then none
    else
      some
        { game := "quotele"
          date := dateLabel
          solution_user_id := msg.authorId
          quote_scrambled := scrambleWords randShuffle originalClean
          quote_original := originalClean
          quote_hash := sha256Hex originalNorm
          message_span := 1
          time_bucket := bucketTime msg.createdTimestamp
          channel_category := msg.channelParentName
          min_chars := originalNorm.length
          solution_user_name := none }

/-- The single-separator split `name.split(/[._-]/)`. -/
def splitOnSepChars (cs : List Char) : List (List Char) :=
  splitOnPred (fun c => c == '.' || c == '_' || c == '-') cs

/-- The filename-keyword extraction of the media builder: split on
`[._-]`, keep nonempty pieces starting with two ASCII letters
(`/^[a-zA-Z]{2,}/`), lower-cased. -/
def fileKeywords (name : String) : List String :=
  (((splitOnSepChars name.toList).map String.mk).filter
    (fun part => part != "" &&
      (match part.toList with
       | a :: b :: _ => a.isAlpha && b.isAlpha
       | _ => false))).map jsToLower

structure MedialePuzzle where
  game : String
  date : String
  solution_user_id : String
  media_url : String
  file_name : Option String
  size : Option Nat
  keywords : List String
  time_bucket : String
  channel_category : Option String
  solution_user_name : Option String
deriving DecidableEq, Repr

/-- `buildMedialePayload` from the bot (`attachment.name || null` and
`attachment.size || null` treat `""` and `0` as absent). -/
def buildMedialePayload (allMessages : List Msg) (dateLabel : String) (rand : Nat) :
    Option MedialePuzzle :=
  let mediaMsgs := allMessages.filter hasImageAttachment
  match pickRandomMessage mediaMsgs rand with
  | none => none
  | some msg =>
    match msg.attachments with
    | [] => none
    | attachment :: _ =>
      some
        { game := "mediale"
          date := dateLabel
          solution_user_id := msg.authorId
          media_url := attachment.url
          file_name := if jsStrTruthy attachment.name then attachment.name else none
          size := if attachment.size ≠ 0 then some attachment.size else none
          keywords := fileKeywords (jsOrOptStr attachment.name "")
          time_bucket := bucketTime msg.createdTimestamp
          channel_category := msg.channelParentName
          solution_user_name := none }

/-- One `wordUserMap[w].add(uid)` step on an insertion-ordered map of
words to author sets (sets modelled as duplicate-free lists in insertion
order; JS moves integer-like object keys first, but such keys contain
digits and are filtered out of `rareWords`, and the choice among the rest
is universally quantified). -/
def addWordUser (wum : List (String × List String)) (w uid : String) :
    List (String × List String) :=
  match wum with
  | [] => [(w, [uid])]
  | e :: rest =>
    if e.1 == w then (e.1, if e.2.contains uid then e.2 else e.2 ++ [uid]) :: rest
    else e :: addWordUser rest w uid

/-- The `wordUserMap` construction of the stat builder. -/
def buildWordUserMap (byUser : List (String × List Msg)) : List (String × List String) :=
  byUser.foldl (fun acc e =>
    e.2.foldl (fun acc m =>
      (if m.content != "" then extractContentWords m.content else []).foldl
        (fun acc w => addWordUser acc w e.1) acc) acc) []

/-- The `rareWords` filter of the stat builder: exactly one distinct
author, length > 3, no digit (`!w.match(/\d+/)`). -/
def rareWordEntries (wum : List (String × List String)) : List (String × List String) :=
  wum.filter (fun e => e.2.length == 1 && 3 < e.1.length && ¬ e.1.toList.any Char.isDigit)

/-- The three stat shapes the stat builder can emit. -/
inductive StatStats where
  | uniqueWord (unique_word : String) (messages : Nat) (reactions_received : Nat) : StatStats
  | longestMessage (messages : Nat) (longest_message_length : Nat)
      (reactions_received : Nat) : StatStats
  | messagesOnly (messages : Nat) : StatStats
deriving DecidableEq, Repr

structure StatlePuzzle where
  game : String
  date : String
  solution_user_id : String
  stats : StatStats
  solution_user_name : Option String
deriving DecidableEq, Repr

def reactionsReceived (msgs : List Msg) : Nat :=
  msgs.foldl (fun a m => a + m.reactionsCount) 0

/-- `buildStatlePayload` from the bot: prefer a unique word (its sole
author is the solution), else the author of the single longest message,
else a random author. -/
def buildStatlePayload (allMessages : List Msg) (dateLabel : String)
    (randWord randElse : Nat) : Option StatlePuzzle :=
  if allMessages.isEmpty then none
  else
    let byUser := groupByAuthor allMessages
    let longest := allMessages.foldl
      (fun acc m =>
        if m.content != "" && acc.2 < m.content.length then (some m.authorId, m.content.length)
        else acc)
      ((none : Option String), 0)
    let wordUserMap := buildWordUserMap byUser
    let rareWords := (rareWordEntries wordUserMap).map (fun e => e.1)
    match rareWords.get? (randWord % rareWords.length) with
    | some w =>
      match (alistGet wordUserMap w).getD [] with
      | [] => none
      | chosenUser :: _ =>
        let msgsOf := (alistGet byUser chosenUser).getD []
        some
          { game := "statle"
            date := dateLabel
            solution_user_id := chosenUser
            stats := .uniqueWord w msgsOf.length (reactionsReceived msgsOf)
            solution_user_name := none }
    | none =>
      match longest.1 with
      | some uid =>
        let msgsOf := (alistGet byUser uid).getD []
        some
          { game := "statle"
            date := dateLabel
            solution_user_id := uid
            stats := .longestMessage msgsOf.length longest.2 (reactionsReceived msgsOf)
            solution_user_name := none }
      | none =>
        match (byUser.map (fun e => e.1)).get? (randElse % byUser.length) with
        | none => none
        | some uid =>
          let msgsOf := (alistGet byUser uid).getD []
          some
            { game := "statle"
              date := dateLabel
              solution_user_id := uid
              stats := .messagesOnly msgsOf.length
              solution_user_name := none }


/-- The body of the metrics-map loop in `generatePuzzlesForGuild` for one
member, over that member's sampled messages (`metricsMessagesByUser.get(uid)
|| []`).  The member is always present when the loop runs, so
`accountAgeRange` is always populated. -/
def computeMetrics (nowMs : Int) (msgs : List Msg) (member : Member) : ActivityMetrics :=
  match msgs with
  | [] =>
    { messageCount := 0
      topWord := none
      activeWindow := "Not active"
      mentions := 0
      firstMessageBucket := none
      accountAgeRange := some (accountAgeRange nowMs member.createdTimestamp) }
  | m0 :: rest =>
    let hours := (m0 :: rest).map (fun m => getUTCHours m.createdTimestamp)
    let firstMsg :=
      rest.foldl (fun a b => if a.createdTimestamp < b.createdTimestamp then a else b) m0
    { messageCount := (m0 :: rest).length
      topWord := topNonCommonWord (m0 :: rest)
      activeWindow :=
        bucketTime (listMinI hours * 3600 * 1000) ++ " — " ++
          bucketTime (listMaxI hours * 3600 * 1000)
      mentions := (m0 :: rest).foldl (fun acc m => acc + m.mentionsCount) 0
      firstMessageBucket := some (bucketTime firstMsg.createdTimestamp)
      accountAgeRange := some (accountAgeRange nowMs member.createdTimestamp) }

/-- The range loop of `generatePuzzlesForGuild` (lines 686–697): the first
range whose collected messages survive the opt-in filter nonempty wins,
together with that range. -/
def selectRangeSample (channels : List Channel) (optedInSet : List String) :
    List DayRange → Option (FilteredSample × DayRange)
  | [] => none
  | r :: rest =>
    let result := collectMessagesForRange channels r.startMs r.endMs
    if result.allMessages.isEmpty then selectRangeSample channels optedInSet rest
    else
      let filtered := filterMessagesByOptIn result.allMessages optedInSet
      if filtered.allMessages.isEmpty then selectRangeSample channels optedInSet rest
      else some (filtered, r)

/-- `nameMap[id] || null`, used when attaching `solution_user_name`. -/
def nameOrNull (nameMap : List (String × String)) (uid : String) : Option String :=
  match alistGet nameMap uid with
  | some n => if n != "" then some n else none
  | none => none

/-- The per-run inputs of `generatePuzzlesForGuild`: the opt-in registry
snapshot (`storage.optInUsers`), the fetched member map, the readable
channels with their histories, the clock, and the two configuration
values the builders close over. -/
structure PipelineEnv where
  optInUsers : List String
  membersMap : List (String × Member)
  channels : List Channel
  nowMs : Int
  minQuoteLength : Nat
  sha256Hex : String → String

/-- One outcome of every `Math.random()` draw the pipeline can make, so
that theorems quantify over all randomness. -/
structure PipelineRand where
  friendleMain : Nat
  friendleFallback : Nat
  friendleMetrics : Nat
  quoteMain : Nat
  quoteShuffleMain : Nat → Nat
  quoteFallback : Nat
  quoteShuffleFallback : Nat → Nat
  medialeMain : Nat
  medialeFallback : Nat
  statleWordMain : Nat
  statleElseMain : Nat
  statleWordFallback : Nat
  statleElseFallback : Nat

/-- Everything one `generatePuzzlesForGuild` run produces or posts: the
four puzzles (with solution names/metrics attached) and the metadata
payload (name map, metrics map, date, allowed display names).
`generated = false` is the early `no_opted_in` return. -/
structure PipelineResult where
  generated : Bool
  friendle : Option FriendlePuzzle
  quotele : Option QuotelePuzzle
  mediale : Option MedialePuzzle
  statle : Option StatlePuzzle
  nameMap : List (String × String)
  metricsMap : List (String × ActivityMetrics)
  metadataDate : String
  allowedUsernames : List String

/-- The `no_opted_in` early return. -/
def emptyPipelineResult : PipelineResult :=
  ⟨false, none, none, none, none, [], [], "", []⟩

/-- `generatePuzzlesForGuild` from the bot, as a pure function of the
per-run inputs and the random draws: opt-in restriction, the
yesterday/today range scan, the bounded fallback scan, the four builders
with their per-builder fallback scans, the metrics/name maps, the terminal
metrics-based friendle fallback, and the metadata payload fields. -/
def generatePuzzlesForGuild (env : PipelineEnv) (rand : PipelineRand) : PipelineResult :=
  let membersMap := env.membersMap
  let optedInMembers := env.optInUsers.filter (fun uid => (alistGet membersMap uid).isSome)
  if optedInMembers.isEmpty then emptyPipelineResult
  else
    let optedInSet := optedInMembers
    let channels := env.channels
    let yesterdayRange := getDayRangeUtc env.nowMs (-1)
    let sel := selectRangeSample channels optedInSet
      [yesterdayRange, getDayRangeUtc env.nowMs 0]
    let afterRange : List Msg × List (String × List Msg) × String :=
      match sel with
      | some (fs, r) => (fs.allMessages, fs.messagesByUser, r.dateLabel)
      | none =>
        let fallback := collectRecentOptInMessages channels optedInSet
          ⟨100, 25, 500, 15, 200, none⟩
        (fallback.allMessages, fallback.messagesByUser,
          getNewestMessageDateLabel fallback.allMessages
            (jsOrOptStr fallback.dateLabel yesterdayRange.dateLabel))
    let allMessages := afterRange.1
    let messagesByUser := afterRange.2.1
    let dateLabel :=
      if allMessages.isEmpty then (getDayRangeUtc env.nowMs 0).dateLabel else afterRange.2.2
    let friendle0 := buildFriendlePayload env.optInUsers messagesByUser membersMap dateLabel
      env.nowMs rand.friendleMain
    let friendleStep : Option FriendlePuzzle × List (String × List Msg) × String :=
      match friendle0 with
      | some f => (some f, messagesByUser, dateLabel)
      | none =>
        let ff := collectRecentOptInMessages channels optedInSet ⟨100, 50, 800, 15, 350, none⟩
        let friendDate := getNewestMessageDateLabel ff.allMessages
          (jsOrOptStr ff.dateLabel dateLabel)
        match buildFriendlePayload env.optInUsers ff.messagesByUser membersMap friendDate
          env.nowMs rand.friendleFallback with
        | some f => (some f, ff.messagesByUser, friendDate)
        | none => (none, messagesByUser, dateLabel)
    let friendle1 := friendleStep.1
    let metricsMessagesByUser := friendleStep.2.1
    let metadataDateLabel := friendleStep.2.2
    let nameMap := membersMap.map (fun e => (e.1, getDisplayName e.2))
    let metricsMap := membersMap.map (fun e =>
      (e.1, computeMetrics env.nowMs ((alistGet metricsMessagesByUser e.1).getD []) e.2))
    let friendle2 :=
      match friendle1 with
      | some f => some f
      | none => buildFallbackFriendleFromMetrics optedInMembers membersMap metricsMap
          dateLabel env.nowMs rand.friendleMetrics
    let quotele1 :=
      match buildQuotelePayload env.sha256Hex env.minQuoteLength allMessages dateLabel
        rand.quoteMain rand.quoteShuffleMain with
      | some q => some q
      | none =>
        let qf := collectRecentOptInMessages channels optedInSet
          ⟨100, 50, 800, 10, 350, some (fun msg =>
            msg.content != "" && env.minQuoteLength ≤ msg.content.length &&
              ¬ containsUrlLike msg.content)⟩
        buildQuotelePayload env.sha256Hex env.minQuoteLength qf.allMessages
          (getNewestMessageDateLabel qf.allMessages (jsOrOptStr qf.dateLabel dateLabel))
          rand.quoteFallback rand.quoteShuffleFallback
    let mediale1 :=
      match buildMedialePayload allMessages dateLabel rand.medialeMain with
      | some p => some p
      | none =>
        let mf := collectRecentOptInMessages channels optedInSet
          ⟨100, 60, 200, 1, 350, some hasImageAttachment⟩
        buildMedialePayload mf.allMessages
          (getNewestMessageDateLabel mf.allMessages (jsOrOptStr mf.dateLabel dateLabel))
          rand.medialeFallback
    let statle1 :=
      match buildStatlePayload allMessages dateLabel rand.statleWordMain rand.statleElseMain with
      | some p => some p
      | none =>
        let sf := collectRecentOptInMessages channels optedInSet ⟨100, 40, 800, 50, 350, none⟩
        buildStatlePayload sf.allMessages
          (getNewestMessageDateLabel sf.allMessages (jsOrOptStr sf.dateLabel dateLabel))
          rand.statleWordFallback rand.statleElseFallback
    { generated := true
      friendle := friendle2.map (fun f =>
        { f with
          solution_user_name := nameOrNull nameMap f.solution_user_id
          solution_metrics := alistGet metricsMap f.solution_user_id })
      quotele := quotele1.map (fun q =>
        { q with solution_user_name := nameOrNull nameMap q.solution_user_id })
      mediale := mediale1.map (fun p =>
        { p with solution_user_name := nameOrNull nameMap p.solution_user_id })
      statle := statle1.map (fun p =>
        { p with solution_user_name := nameOrNull nameMap p.solution_user_id })
      nameMap := nameMap
      metricsMap := metricsMap
      metadataDate := metadataDateLabel
      allowedUsernames :=
        (optedInMembers.filterMap (fun uid => alistGet nameMap uid)).filter (fun n => n != "") }

end Bot


/-! ## Supporting lemmas -/

theorem natOr_eq_zero_iff (a b : Nat) : a ||| b = 0 ↔ a = 0 ∧ b = 0 := by
  constructor
  · intro h
    have hbit : ∀ k, a.testBit k = false ∧ b.testBit k = false := by
      intro k
      have := congrArg (fun n => Nat.testBit n k) h
      simpa [Nat.testBit_lor] using this
    exact ⟨Nat.eq_of_testBit_eq (fun k => by simp [(hbit k).1]),
           Nat.eq_of_testBit_eq (fun k => by simp [(hbit k).2])⟩
  · rintro ⟨rfl, rfl⟩
    rfl

theorem charXor_eq_zero_iff (a b : Char) : a.toNat ^^^ b.toNat = 0 ↔ a = b := by
  rw [Nat.xor_eq_zero]
  constructor
  · intro h
    exact Char.eq_of_val_eq (UInt32.toNat.inj h)
  · intro h
    rw [h]

theorem xorFold_eq_zero_iff (as bs : List Char) (hlen : as.length = bs.length) :
    Worker.xorFold as bs = 0 ↔ as = bs := by
  induction as generalizing bs with
  | nil =>
    cases bs with
    | nil => simp [Worker.xorFold]
    | cons b bs => simp at hlen
  | cons a as ih =>
    cases bs with
    | nil => simp at hlen
    | cons b bs =>
      simp only [List.length_cons, Nat.add_right_cancel_iff] at hlen
      rw [show Worker.xorFold (a :: as) (b :: bs) =
        (a.toNat ^^^ b.toNat) ||| Worker.xorFold as bs from rfl]
      rw [natOr_eq_zero_iff, charXor_eq_zero_iff, ih bs hlen]
      simp

theorem string_toList_inj (a b : String) (h : a.toList = b.toList) : a = b := by
  cases a
  cases b
  simp only [String.toList] at h
  exact congrArg String.mk h

/-- `timingSafeEqualHex` decides string equality: the constant-time
comparison accepts exactly when the header equals the recomputed digest. -/
theorem timingSafeEqualHex_iff (a b : String) :
    Worker.timingSafeEqualHex a b = true ↔ a = b := by
  unfold Worker.timingSafeEqualHex
  split
  · rename_i hne
    constructor
    · intro h
      exact absurd h (by simp)
    · intro h
      exact absurd (congrArg String.length h) hne
  · rename_i hlen
    rw [Decidable.not_not] at hlen
    have hl : a.toList.length = b.toList.length := hlen
    rw [beq_iff_eq, xorFold_eq_zero_iff a.toList b.toList hl]
    constructor
    · exact string_toList_inj a b
    · intro h
      rw [h]

/-! ## Claim C2: the `/ingest` signature and validation contract -/

/-- C2: every POST to `/ingest` recomputes the digest of the raw body and
compares it to `X-Signature` via the constant-time equality; an absent
header is rejected 401 and a mismatched one 403, with the store unchanged;
a correctly signed body that fails to parse, or parses without truthy
`guild_id`, `puzzle.date` or `puzzle.game`, is rejected 400 with the store
unchanged. -/
theorem ingest_signature_and_validation
    (hmac : String → String → String) (parse : String → Option Worker.Json)
    (stringify : Worker.Json → String) (sec body : String) (kv : Worker.KV)
    (hsec : sec ≠ "") :
    (∀ a b, Worker.timingSafeEqualHex a b = true ↔ a = b) ∧
    Worker.ingestHandler hmac parse stringify (some sec) none body kv = (401, kv) ∧
    (∀ sig, sig ≠ hmac sec body →
      Worker.ingestHandler hmac parse stringify (some sec) (some sig) body kv = (401, kv) ∨
      Worker.ingestHandler hmac parse stringify (some sec) (some sig) body kv = (403, kv)) ∧
    (hmac sec body ≠ "" → parse body = none →
      Worker.ingestHandler hmac parse stringify (some sec) (some (hmac sec body)) body kv
        = (400, kv)) ∧
    (∀ payload, hmac sec body ≠ "" → parse body = some payload →
      (¬ Worker.truthy (Worker.jGet payload "guild_id") ∨
        ¬ Worker.truthy (Worker.jGet payload "puzzle") ∨
        ¬ Worker.truthy (Worker.jGet (Worker.jGet payload "puzzle") "date") ∨
        ¬ Worker.truthy (Worker.jGet (Worker.jGet payload "puzzle") "game")) →
      Worker.ingestHandler hmac parse stringify (some sec) (some (hmac sec body)) body kv
        = (400, kv)) := by
  refine ⟨timingSafeEqualHex_iff, ?_, ?_, ?_, ?_⟩
  · simp [Worker.ingestHandler, Worker.verifySignedJson, jsStrTruthy]
  · intro sig hne
    by_cases hempty : sig = ""
    · left
      subst hempty
      simp [Worker.ingestHandler, Worker.verifySignedJson, jsStrTruthy]
    · right
      have hcmp : Worker.timingSafeEqualHex sig (hmac sec body) = false := by
        rw [Bool.eq_false_iff]
        intro hc
        exact hne ((timingSafeEqualHex_iff _ _).mp hc)
      simp [Worker.ingestHandler, Worker.verifySignedJson, jsStrTruthy, hempty,
        hsec, hcmp]
  · intro hdig hparse
    have hcmp : Worker.timingSafeEqualHex (hmac sec body) (hmac sec body) = true :=
      (timingSafeEqualHex_iff _ _).mpr rfl
    simp [Worker.ingestHandler, Worker.verifySignedJson, jsStrTruthy, hdig,
      hsec, hcmp, hparse]
  · intro payload hdig hparse hmiss
    have hcmp : Worker.timingSafeEqualHex (hmac sec body) (hmac sec body) = true :=
      (timingSafeEqualHex_iff _ _).mpr rfl
    simp only [Worker.ingestHandler, Worker.verifySignedJson, jsStrTruthy]
    simp [hdig, hsec, hcmp, hparse]
    intro h1 h2 h3
    rcases hmiss with h | h | h | h
    · exact absurd h1 h
    · exact absurd h2 h
    · exact absurd h3 h
    · simpa using h

/-- Witness for `ingest_signature_and_validation` at a concrete secret,
body and store. -/
theorem ingest_signature_and_validation_witness :
    Worker.ingestHandler (fun _ b => b) (fun _ => none) (fun _ => "") (some "s")
      (some "nope") "body" [] = (401, []) ∨
    Worker.ingestHandler (fun _ b => b) (fun _ => none) (fun _ => "") (some "s")
      (some "nope") "body" [] = (403, []) :=
  (ingest_signature_and_validation (fun _ b => b) (fun _ => none) (fun _ => "") "s" "body" []
    (by decide)).2.2.1 "nope" (by decide)

/-! ## Claim C3: the counter subsystem -/

theorem kvGet_kvPut_self (kv : Worker.KV) (k v : String) :
    Worker.kvGet (Worker.kvPut kv k v) k = some v := by
  simp [Worker.kvGet, Worker.kvPut]

theorem kvGet_kvPut_ne (kv : Worker.KV) (k k' v : String) (h : k' ≠ k) :
    Worker.kvGet (Worker.kvPut kv k v) k' = Worker.kvGet kv k' := by
  unfold Worker.kvGet Worker.kvPut
  rw [List.find?]
  have hne : (((k, v) : String × String).1 == k') = false := by
    simp only [beq_eq_false_iff_ne]
    exact fun hc => h (hc.symm)
  rw [hne]

theorem bumpStat_eq (kv : Worker.KV) (scope t key : String) (n : Int)
    (hk : Worker.statKeyFor scope t = some key)
    (hn : Worker.numberOr0 (Worker.kvGet kv key) = some n) :
    Worker.bumpStat kv scope t = Worker.kvPut kv key (toString (n + 1)) := by
  unfold Worker.bumpStat
  rw [hk]
  simp only [hn]

/-- Every counter key is its scope followed by a metric suffix determined
by the event type alone. -/
theorem statKeyFor_shape (scope t k : String) (h : Worker.statKeyFor scope t = some k) :
    ∃ suf, (∀ scope', Worker.statKeyFor scope' t = some (scope' ++ suf)) ∧
      k = scope ++ suf := by
  unfold Worker.statKeyFor at h
  split at h
  · exact ⟨":views", fun s' => rfl, by injection h with h; exact h.symm⟩
  · exact ⟨":guesses_total", fun s' => rfl, by injection h with h; exact h.symm⟩
  · exact ⟨":guessed_correctly", fun s' => rfl, by injection h with h; exact h.symm⟩
  · exact ⟨":completed_games", fun s' => rfl, by injection h with h; exact h.symm⟩
  · exact absurd h (by simp)

/-- The total-scope and day-scope keys of the same event never collide
when the date is nonempty. -/
theorem statKeys_ne (g d t tk dk : String) (hd : d ≠ "")
    (htk : Worker.statKeyFor ("stats:guild:" ++ g ++ ":total") t = some tk)
    (hdk : Worker.statKeyFor ("stats:guild:" ++ g ++ ":date:" ++ d) t = some dk) :
    tk ≠ dk := by
  obtain ⟨suf, hall, hk⟩ := statKeyFor_shape _ _ _ htk
  have hdk2 : dk = "stats:guild:" ++ g ++ ":date:" ++ d ++ suf := by
    have := hall ("stats:guild:" ++ g ++ ":date:" ++ d)
    rw [this] at hdk
    injection hdk with h
    exact h.symm
  intro heq
  have hlen := congrArg String.length heq
  rw [hk, hdk2] at hlen
  simp only [String.length_append] at hlen
  have h6 : (":total" : String).length = 6 := rfl
  have h6b : (":date:" : String).length = 6 := rfl
  rw [h6, h6b] at hlen
  have : d.length = 0 := by omega
  exact hd (by
    cases d with
    | mk data =>
      cases data with
      | nil => rfl
      | cons c cs => simp [String.length, List.length] at this)

/-- C3: Scenario C concretely — a `guess_correct` POST for community 42
against a store without that counter makes `GET /stats?guild_id=42` report
`guessed_correctly = 1`, a second sequential POST makes it report 2 — and
in general every accepted `/stats/event` request applies a read-modify-write
increment of exactly one to the event's metric in the community-total
scope and, when a date is supplied, in the community-day scope, leaving
every other key untouched.  (`community_id` is the specification's name
for the wire field `guild_id`.) -/
theorem stats_event_counter_increment :
    ((Worker.statsEventHandler none none
        (some (.obj [("type", .str "guess_correct"), ("guild_id", .str "42")])) []).status
        = 200 ∧
      (Worker.statsGetHandler
        (Worker.statsEventHandler none none
          (some (.obj [("type", .str "guess_correct"), ("guild_id", .str "42")])) []).kv
        (some "42") none none).guessed_correctly = some 1 ∧
      (Worker.statsGetHandler
        (Worker.statsEventHandler none none
          (some (.obj [("type", .str "guess_correct"), ("guild_id", .str "42")]))
          (Worker.statsEventHandler none none
            (some (.obj [("type", .str "guess_correct"), ("guild_id", .str "42")])) []).kv).kv
        (some "42") none none).guessed_correctly = some 2) ∧
    (∀ (kv : Worker.KV) (g d t tk dk : String) (n m : Int),
      t ∈ (["view", "guess", "guess_correct", "game_complete"] : List String) →
      g ≠ "" → d ≠ "" →
      Worker.statKeyFor ("stats:guild:" ++ g ++ ":total") t = some tk →
      Worker.statKeyFor ("stats:guild:" ++ g ++ ":date:" ++ d) t = some dk →
      Worker.numberOr0 (Worker.kvGet kv tk) = some n →
      Worker.numberOr0 (Worker.kvGet kv dk) = some m →
      (Worker.statsEventHandler none none
          (some (.obj [("type", .str t), ("guild_id", .str g), ("date", .str d)])) kv).status
          = 200 ∧
        Worker.kvGet (Worker.statsEventHandler none none
          (some (.obj [("type", .str t), ("guild_id", .str g), ("date", .str d)])) kv).kv tk
          = some (toString (n + 1)) ∧
        Worker.kvGet (Worker.statsEventHandler none none
          (some (.obj [("type", .str t), ("guild_id", .str g), ("date", .str d)])) kv).kv dk
          = some (toString (m + 1)) ∧
        (∀ k, k ≠ tk → k ≠ dk →
          Worker.kvGet (Worker.statsEventHandler none none
            (some (.obj [("type", .str t), ("guild_id", .str g), ("date", .str d)])) kv).kv k
            = Worker.kvGet kv k)) := by
  constructor
  · refine ⟨by decide, by decide, by decide⟩
  · intro kv g d t tk dk n m ht hg hd htk hdk hn hm
    have hne := statKeys_ne g d t tk dk hd htk hdk
    have hkv : (Worker.statsEventHandler none none
        (some (.obj [("type", .str t), ("guild_id", .str g), ("date", .str d)])) kv).kv
        = Worker.kvPut (Worker.kvPut kv tk (toString (n + 1))) dk (toString (m + 1)) ∧
        (Worker.statsEventHandler none none
        (some (.obj [("type", .str t), ("guild_id", .str g), ("date", .str d)])) kv).status
        = 200 := by
      fin_cases ht <;>
      · simp only [Worker.statsEventHandler, Worker.statsEventBody, jsStrTruthy,
          Worker.jGet, Worker.jsStringOrEmpty, Worker.truthy, Worker.jsString,
          List.find?, Worker.isLatestFlag]
        simp [hg, hd,
          show jsToLower "view" = "view" from rfl,
          show jsToLower "guess" = "guess" from rfl,
          show jsToLower "guess_correct" = "guess_correct" from rfl,
          show jsToLower "game_complete" = "game_complete" from rfl]
        rw [bumpStat_eq kv _ _ tk n htk hn,
          bumpStat_eq _ _ _ dk m hdk (by rw [kvGet_kvPut_ne kv tk dk _ hne.symm]; exact hm)]
    refine ⟨hkv.2, ?_, ?_, ?_⟩
    · rw [hkv.1, kvGet_kvPut_ne _ dk tk _ hne, kvGet_kvPut_self]
    · rw [hkv.1, kvGet_kvPut_self]
    · intro k hk1 hk2
      rw [hkv.1, kvGet_kvPut_ne _ dk k _ hk2, kvGet_kvPut_ne _ tk k _ hk1]

/-- Witness for the general increment clause of
`stats_event_counter_increment` at a concrete event and empty store. -/
theorem stats_event_counter_increment_witness :
    Worker.kvGet (Worker.statsEventHandler none none
      (some (.obj [("type", .str "guess_correct"), ("guild_id", .str "42"),
        ("date", .str "2024-01-01")])) []).kv "stats:guild:42:total:guessed_correctly"
      = some (toString ((0 : Int) + 1)) :=
  (stats_event_counter_increment.2 [] "42" "2024-01-01" "guess_correct"
    "stats:guild:42:total:guessed_correctly"
    "stats:guild:42:date:2024-01-01:guessed_correctly" 0 0
    (by decide) (by decide) (by decide) (by decide) (by decide) (by decide) (by decide)).2.1

/-! ## Claim C6: quote-candidate filtering -/

set_option maxHeartbeats 16000000 in
/-- C6: every message the quote builder accepts has raw content length at
least the configured minimum and matches none of the URL/invite/domain
patterns; any returned quote puzzle hashes a normalized text of length at
least 10; the message `"check this out www.example.com"` is never a quote
candidate, while `"This community's weekly roundup goes here"` always is
(for the default minimum 40). -/
theorem quote_candidate_filter :
    (∀ (minLen : Nat) (msgs : List Bot.Msg) (m : Bot.Msg),
      m ∈ Bot.longMsgsOf minLen msgs →
        minLen ≤ m.content.length ∧ Bot.containsUrlLike m.content = false) ∧
    (∀ (sha : String → String) (minLen : Nat) (msgs : List Bot.Msg) (dl : String)
      (rp : Nat) (rs : Nat → Nat) (p : Bot.QuotelePuzzle),
      Bot.buildQuotelePayload sha minLen msgs dl rp rs = some p →
        10 ≤ p.min_chars ∧
        ∃ m, m ∈ Bot.longMsgsOf minLen msgs ∧
          p.min_chars = (Bot.normalizeQuoteForHash (Bot.anonymizeText m.content)).length ∧
          p.quote_hash = sha (Bot.normalizeQuoteForHash (Bot.anonymizeText m.content))) ∧
    Bot.containsUrlLike "check this out www.example.com" = true ∧
    (∀ (minLen : Nat) (msgs : List Bot.Msg) (m : Bot.Msg),
      m.content = "check this out www.example.com" → m ∉ Bot.longMsgsOf minLen msgs) ∧
    (∀ (msgs : List Bot.Msg) (m : Bot.Msg), m ∈ msgs →
      m.content = "This community's weekly roundup goes here" →
      m ∈ Bot.longMsgsOf 40 msgs) := by
  have hfilter : ∀ (minLen : Nat) (msgs : List Bot.Msg) (m : Bot.Msg),
      m ∈ Bot.longMsgsOf minLen msgs →
        minLen ≤ m.content.length ∧ Bot.containsUrlLike m.content = false := by
    intro minLen msgs m hm
    unfold Bot.longMsgsOf at hm
    have h2 := List.of_mem_filter hm
    have h1 := List.of_mem_filter (List.mem_of_mem_filter hm)
    simp only [Bool.and_eq_true, bne_iff_ne, decide_eq_true_eq] at h1
    constructor
    · exact h1.2
    · simpa using h2
  refine ⟨hfilter, ?_, by decide, ?_, ?_⟩
  · intro sha minLen msgs dl rp rs p hp
    unfold Bot.buildQuotelePayload at hp
    dsimp only at hp
    split at hp
    · exact absurd hp (by simp)
    · rename_i msg hpick
      split at hp
      · exact absurd hp (by simp)
      · rename_i hguard
        simp only [Bool.or_eq_true, decide_eq_true_eq, not_or] at hguard
        simp only [Option.some.injEq] at hp
        subst hp
        dsimp only
        exact ⟨Nat.le_of_not_lt hguard.2, msg, List.get?_mem hpick, rfl, rfl⟩
  · intro minLen msgs m hcontent hm
    have h := (hfilter minLen msgs m hm).2
    rw [hcontent] at h
    exact absurd h (by decide)
  · intro msgs m hm hcontent
    unfold Bot.longMsgsOf
    refine List.mem_filter.mpr ⟨List.mem_filter.mpr ⟨hm, ?_⟩, ?_⟩
    · rw [hcontent]
      decide
    · rw [hcontent]
      decide

set_option maxHeartbeats 16000000 in
/-- Witness for `quote_candidate_filter`: the eligible sample message, its
filter facts, the URL message's exclusion, and a concrete successful
build. -/
theorem quote_candidate_filter_witness :
    ((⟨1, "u1", 0, "This community's weekly roundup goes here", 0, 0, [], none⟩ : Bot.Msg)
        ∈ Bot.longMsgsOf 40
          [⟨1, "u1", 0, "This community's weekly roundup goes here", 0, 0, [], none⟩]) ∧
    40 ≤ ("This community's weekly roundup goes here" : String).length ∧
    ((⟨2, "u1", 0, "check this out www.example.com", 0, 0, [], none⟩ : Bot.Msg)
        ∉ Bot.longMsgsOf 40
          [⟨2, "u1", 0, "check this out www.example.com", 0, 0, [], none⟩]) ∧
    ((Bot.buildQuotelePayload (fun _ => "h") 40
        [⟨1, "u1", 0, "This community's weekly roundup goes here", 0, 0, [], none⟩]
        "2024-01-01" 0 (fun _ => 0)).all (fun p => decide (10 ≤ p.min_chars))) = true := by
  have hmem : (⟨1, "u1", 0, "This community's weekly roundup goes here", 0, 0, [], none⟩ : Bot.Msg)
      ∈ Bot.longMsgsOf 40
        [⟨1, "u1", 0, "This community's weekly roundup goes here", 0, 0, [], none⟩] :=
    quote_candidate_filter.2.2.2.2 _ _ (by simp) rfl
  refine ⟨hmem, (quote_candidate_filter.1 40 _ _ hmem).1, ?_, ?_⟩
  · exact quote_candidate_filter.2.2.2.1 40 _ _ rfl
  · cases heq : Bot.buildQuotelePayload (fun _ => "h") 40
        [⟨1, "u1", 0, "This community's weekly roundup goes here", 0, 0, [], none⟩]
        "2024-01-01" 0 (fun _ => 0) with
    | none => exact absurd heq (by decide)
    | some p =>
      have h10 := (quote_candidate_filter.2.1 _ 40 _ _ 0 _ p heq).1
      simp [h10]

/-! ## Claim C7: the word shuffle is a permutation -/

theorem coe_set_add {α : Type} (l : List α) (i : Nat) (b : α) (h : i < l.length) :
    (↑(l.set i b) : Multiset α) + {l.get ⟨i, h⟩} = ↑l + {b} := by
  induction l generalizing i with
  | nil => exact absurd h (by simp)
  | cons a t ih =>
    cases i with
    | zero =>
      show (↑(b :: t) : Multiset α) + {a} = ↑(a :: t) + {b}
      simp only [← Multiset.cons_coe, ← Multiset.singleton_add]
      abel
    | succ i =>
      have hi : i < t.length := by simpa using h
      show (↑(a :: t.set i b) : Multiset α) + {t.get ⟨i, hi⟩} = ↑(a :: t) + {b}
      simp only [← Multiset.cons_coe, ← Multiset.singleton_add]
      rw [add_assoc, add_assoc]
      have := ih i hi
      simp only [← Multiset.singleton_add] at this
      rw [this]

theorem listSwap_coe {α : Type} (l : List α) (i j : Nat) :
    (↑(Bot.listSwap l i j) : Multiset α) = ↑l := by
  unfold Bot.listSwap
  split
  · rename_i a b hi hj
    have hil : i < l.length := (List.get?_eq_some.mp hi).1
    have hjl : j < l.length := (List.get?_eq_some.mp hj).1
    have hjl2 : j < (l.set i b).length := by simpa using hjl
    have ha : l.get ⟨i, hil⟩ = a := (List.get?_eq_some.mp hi).2
    have hb : l.get ⟨j, hjl⟩ = b := (List.get?_eq_some.mp hj).2
    have hc : (l.set i b).get ⟨j, hjl2⟩ = b := by
      rcases eq_or_ne i j with rfl | hne
      · simp [List.getElem_set]
      · rw [show (l.set i b).get ⟨j, hjl2⟩ = (l.set i b)[j] from rfl]
        rw [List.getElem_set_ne hne]
        exact hb
    have eq1 := coe_set_add l i b hil
    rw [ha] at eq1
    have eq2 := coe_set_add (l.set i b) j a hjl2
    rw [hc] at eq2
    exact add_right_cancel (eq2.trans eq1)
  · rfl

theorem fyLoop_coe {α : Type} (rand : Nat → Nat) (l : List α) (n : Nat) :
    (↑(Bot.fyLoop rand l n) : Multiset α) = ↑l := by
  induction n generalizing l with
  | zero => rfl
  | succ n ih =>
    show (↑(Bot.fyLoop rand (Bot.listSwap l (n + 1) (rand (n + 1) % (n + 2))) n) : Multiset α)
      = ↑l
    rw [ih, listSwap_coe]

theorem wordRunsF_congr (f1 : Nat) : ∀ (f2 : Nat) (cs : List Char),
    cs.length < f1 → cs.length < f2 → Bot.wordRunsF f1 cs = Bot.wordRunsF f2 cs := by
  induction f1 with
  | zero => intro f2 cs h1; exact absurd h1 (by omega)
  | succ f1 ih =>
    intro f2 cs h1 h2
    cases f2 with
    | zero => exact absurd h2 (by omega)
    | succ f2 =>
      cases cs with
      | nil => rfl
      | cons c rest =>
        show (if isJsWs c then Bot.wordRunsF f1 rest
            else (c :: rest.takeWhile (fun d => ¬ isJsWs d)) ::
              Bot.wordRunsF f1 (rest.dropWhile (fun d => ¬ isJsWs d)))
          = (if isJsWs c then Bot.wordRunsF f2 rest
            else (c :: rest.takeWhile (fun d => ¬ isJsWs d)) ::
              Bot.wordRunsF f2 (rest.dropWhile (fun d => ¬ isJsWs d)))
        simp only [List.length_cons] at h1 h2
        split
        · exact ih f2 rest (by omega) (by omega)
        · rw [ih f2 (rest.dropWhile (fun d => ¬ isJsWs d))
            (by have := Bot.length_dropWhile_le (fun d => ¬ isJsWs d) rest; omega)
            (by have := Bot.length_dropWhile_le (fun d => ¬ isJsWs d) rest; omega)]

theorem wordRuns_nil : Bot.wordRuns [] = [] := rfl

theorem wordRuns_cons_ws (c : Char) (rest : List Char) (h : isJsWs c = true) :
    Bot.wordRuns (c :: rest) = Bot.wordRuns rest := by
  show Bot.wordRunsF (rest.length + 2) (c :: rest) = Bot.wordRunsF (rest.length + 1) rest
  rw [show Bot.wordRunsF (rest.length + 2) (c :: rest)
    = (if isJsWs c then Bot.wordRunsF (rest.length + 1) rest
      else (c :: rest.takeWhile (fun d => ¬ isJsWs d)) ::
        Bot.wordRunsF (rest.length + 1) (rest.dropWhile (fun d => ¬ isJsWs d))) from rfl]
  rw [if_pos h]

theorem wordRuns_cons_word (c : Char) (rest : List Char) (h : isJsWs c = false) :
    Bot.wordRuns (c :: rest) = (c :: rest.takeWhile (fun d => ¬ isJsWs d)) ::
      Bot.wordRuns (rest.dropWhile (fun d => ¬ isJsWs d)) := by
  show Bot.wordRunsF (rest.length + 2) (c :: rest) = _
  rw [show Bot.wordRunsF (rest.length + 2) (c :: rest)
    = (if isJsWs c then Bot.wordRunsF (rest.length + 1) rest
      else (c :: rest.takeWhile (fun d => ¬ isJsWs d)) ::
        Bot.wordRunsF (rest.length + 1) (rest.dropWhile (fun d => ¬ isJsWs d))) from rfl]
  rw [if_neg (by simp [h])]
  refine congrArg _ (wordRunsF_congr _ _ _ ?_ ?_) <;>
    have := Bot.length_dropWhile_le (fun d => ¬ isJsWs d) rest <;> omega

theorem wordRuns_tokens_bounded (n : Nat) : ∀ (cs : List Char), cs.length ≤ n →
    ∀ w ∈ Bot.wordRuns cs, w ≠ [] ∧ ∀ ch ∈ w, isJsWs ch = false := by
  induction n with
  | zero =>
    intro cs hlen w hw
    rw [List.length_eq_zero.mp (Nat.le_zero.mp hlen)] at hw
    exact absurd hw (by simp [wordRuns_nil])
  | succ n ih =>
    intro cs hlen w hw
    cases cs with
    | nil => exact absurd hw (by simp [wordRuns_nil])
    | cons c rest =>
      simp only [List.length_cons] at hlen
      by_cases hc : isJsWs c
      · rw [wordRuns_cons_ws c rest hc] at hw
        exact ih rest (by omega) w hw
      · rw [wordRuns_cons_word c rest (by simpa using hc)] at hw
        rcases List.mem_cons.mp hw with rfl | hw2
        · refine ⟨by simp, ?_⟩
          intro ch hch
          rcases List.mem_cons.mp hch with rfl | hch2
          · simpa using hc
          · have := List.mem_takeWhile_imp hch2
            simpa using this
        · have := Bot.length_dropWhile_le (fun d => ¬ isJsWs d) rest
          exact ih (rest.dropWhile (fun d => ¬ isJsWs d)) (by omega) w hw2

/-- Every token produced by `wordRuns` is a nonempty run of
non-whitespace characters. -/
theorem wordRuns_tokens (cs : List Char) :
    ∀ w ∈ Bot.wordRuns cs, w ≠ [] ∧ ∀ ch ∈ w, isJsWs ch = false :=
  wordRuns_tokens_bounded cs.length cs (le_refl _)

theorem takeWhile_append_all {α : Type} (p : α → Bool) (l xs : List α)
    (h : ∀ a ∈ l, p a = true) : (l ++ xs).takeWhile p = l ++ xs.takeWhile p := by
  induction l with
  | nil => rfl
  | cons a t ih =>
    have ha := h a (by simp)
    simp only [List.cons_append, List.takeWhile_cons, ha]
    rw [ih (fun b hb => h b (by simp [hb]))]
    simp

theorem dropWhile_append_all {α : Type} (p : α → Bool) (l xs : List α)
    (h : ∀ a ∈ l, p a = true) : (l ++ xs).dropWhile p = xs.dropWhile p := by
  induction l with
  | nil => rfl
  | cons a t ih =>
    have ha := h a (by simp)
    simp only [List.cons_append, List.dropWhile_cons, ha]
    rw [ih (fun b hb => h b (by simp [hb]))]
    simp

/-- Reading the maximal non-whitespace runs back out of a space-joined
list of nonempty whitespace-free tokens recovers exactly the tokens. -/
theorem wordRuns_joinSpace (ws : List (List Char))
    (h : ∀ w ∈ ws, w ≠ [] ∧ ∀ ch ∈ w, isJsWs ch = false) :
    Bot.wordRuns (Bot.joinSpace ws) = ws := by
  induction ws with
  | nil => rfl
  | cons w ws ih =>
    obtain ⟨hne, hok⟩ := h w (by simp)
    cases ws with
    | nil =>
      show Bot.wordRuns w = [w]
      cases w with
      | nil => exact absurd rfl hne
      | cons c rest =>
        rw [wordRuns_cons_word c rest (hok c (by simp))]
        rw [List.takeWhile_eq_self_iff.mpr ?claim1, List.dropWhile_eq_nil_iff.mpr ?claim2]
        case claim1 =>
          intro a ha
          simp [hok a (by simp [ha])]
        case claim2 =>
          intro a ha
          simp [hok a (by simp [ha])]
        rfl
    | cons w2 ws2 =>
      show Bot.wordRuns (w ++ ' ' :: Bot.joinSpace (w2 :: ws2)) = w :: w2 :: ws2
      cases w with
      | nil => exact absurd rfl hne
      | cons c rest =>
        rw [List.cons_append, wordRuns_cons_word c (rest ++ ' ' :: Bot.joinSpace (w2 :: ws2))
          (hok c (by simp))]
        rw [takeWhile_append_all _ rest _ (by
            intro a ha
            simpa using hok a (by simp [ha])),
          dropWhile_append_all _ rest _ (by
            intro a ha
            simpa using hok a (by simp [ha]))]
        rw [show (' ' :: Bot.joinSpace (w2 :: ws2)).takeWhile (fun d => ¬ isJsWs d) = [] by
          simp [List.takeWhile_cons, isJsWs]]
        rw [show (' ' :: Bot.joinSpace (w2 :: ws2)).dropWhile (fun d => ¬ isJsWs d)
          = ' ' :: Bot.joinSpace (w2 :: ws2) by
          simp [List.dropWhile_cons, isJsWs]]
        rw [wordRuns_cons_ws ' ' _ (by simp [isJsWs])]
        rw [ih (fun x hx => h x (by simp [hx]))]
        simp

/-- C7: for every input text and every outcome of the random shuffle, the
multiset of words in the scrambled output equals the multiset of words in
the original cleaned text, and likewise after normalizing each word — the
word shuffle is a permutation, not a corruption. -/
theorem scramble_words_permutation (rand : Nat → Nat) (text : String) :
    (↑(Bot.wordRuns (Bot.scrambleWords rand text).toList) : Multiset (List Char))
      = ↑(Bot.wordRuns text.toList) ∧
    (↑((Bot.wordRuns (Bot.scrambleWords rand text).toList).map
        (fun w => Bot.normalizeQuoteForHash (String.mk w))) : Multiset String)
      = ↑((Bot.wordRuns text.toList).map
        (fun w => Bot.normalizeQuoteForHash (String.mk w))) := by
  have hcoe : (↑(Bot.fyLoop rand (Bot.wordRuns text.toList)
      ((Bot.wordRuns text.toList).length - 1)) : Multiset (List Char))
      = ↑(Bot.wordRuns text.toList) := fyLoop_coe rand _ _
  have hmem : ∀ w ∈ Bot.fyLoop rand (Bot.wordRuns text.toList)
      ((Bot.wordRuns text.toList).length - 1), w ≠ [] ∧ ∀ ch ∈ w, isJsWs ch = false := by
    intro w hw
    have : w ∈ Bot.wordRuns text.toList := by
      have := Multiset.mem_coe.mpr hw
      rw [hcoe] at this
      exact Multiset.mem_coe.mp this
    exact wordRuns_tokens text.toList w this
  have hround : Bot.wordRuns (Bot.scrambleWords rand text).toList
      = Bot.fyLoop rand (Bot.wordRuns text.toList)
        ((Bot.wordRuns text.toList).length - 1) := by
    show Bot.wordRuns (String.mk (Bot.joinSpace _)).toList = _
    rw [show ∀ l, (String.mk l).toList = l from fun l => rfl]
    exact wordRuns_joinSpace _ hmem
  constructor
  · rw [hround, hcoe]
  · rw [hround]
    rw [show ∀ (l : List (List Char)) (f : List Char → String),
      (↑(l.map f) : Multiset String) = Multiset.map f ↑l from fun l f => rfl]
    rw [hcoe]
    rfl

/-! ## Claim C8: the stat builder's unique-word branch -/

theorem foldl_preserve {α β : Type} (P : α → Prop) (f : α → β → α)
    (hstep : ∀ a b, P a → P (f a b)) : ∀ (l : List β) (a : α), P a → P (l.foldl f a) := by
  intro l
  induction l with
  | nil => intro a ha; exact ha
  | cons b t ih => intro a ha; exact ih (f a b) (hstep a b ha)

theorem mem_keys_addWordUser (wum : List (String × List String)) (w uid k : String)
    (h : k ∈ (Bot.addWordUser wum w uid).map (fun e => e.1)) :
    k ∈ wum.map (fun e => e.1) ∨ k = w := by
  induction wum with
  | nil =>
    right
    simpa [Bot.addWordUser] using h
  | cons e rest ih =>
    unfold Bot.addWordUser at h
    split at h
    · rename_i heq
      simp only [List.map_cons, List.mem_cons] at h ⊢
      tauto
    · simp only [List.map_cons, List.mem_cons] at h ⊢
      rcases h with h | h
      · tauto
      · rcases ih h with h2 | h2 <;> tauto

theorem nodup_keys_addWordUser (wum : List (String × List String)) (w uid : String)
    (h : (wum.map (fun e => e.1)).Nodup) :
    ((Bot.addWordUser wum w uid).map (fun e => e.1)).Nodup := by
  induction wum with
  | nil => simp [Bot.addWordUser]
  | cons e rest ih =>
    unfold Bot.addWordUser
    simp only [List.map_cons, List.nodup_cons] at h
    split
    · rename_i heq
      simpa [List.nodup_cons] using h
    · rename_i hne
      simp only [List.map_cons, List.nodup_cons]
      refine ⟨?_, ih h.2⟩
      intro hmem
      rcases mem_keys_addWordUser rest w uid e.1 hmem with h2 | h2
      · exact h.1 h2
      · exact hne (by simp [h2])

theorem nodup_keys_buildWordUserMap (byUser : List (String × List Bot.Msg)) :
    ((Bot.buildWordUserMap byUser).map (fun e => e.1)).Nodup := by
  unfold Bot.buildWordUserMap
  refine foldl_preserve
    (fun (acc : List (String × List String)) => (acc.map (fun e => e.1)).Nodup)
    (fun acc e =>
      e.2.foldl (fun acc m =>
        (if m.content != "" then Bot.extractContentWords m.content else []).foldl
          (fun acc w => Bot.addWordUser acc w e.1) acc) acc)
    ?_ byUser [] (by simp)
  intro a e ha
  refine foldl_preserve
    (fun (acc : List (String × List String)) => (acc.map (fun e => e.1)).Nodup)
    (fun acc m =>
      (if m.content != "" then Bot.extractContentWords m.content else []).foldl
        (fun acc w => Bot.addWordUser acc w e.1) acc)
    ?_ e.2 a ha
  intro a2 m ha2
  refine foldl_preserve
    (fun (acc : List (String × List String)) => (acc.map (fun e => e.1)).Nodup)
    (fun acc w => Bot.addWordUser acc w e.1)
    ?_ _ a2 ha2
  intro a3 w ha3
  exact nodup_keys_addWordUser a3 w e.1 ha3

theorem alistGet_of_mem_nodup {α : Type} (l : List (String × α)) (k : String) (v : α)
    (hnodup : (l.map (fun e => e.1)).Nodup) (hmem : (k, v) ∈ l) :
    Bot.alistGet l k = some v := by
  induction l with
  | nil => exact absurd hmem (by simp)
  | cons e rest ih =>
    simp only [List.map_cons, List.nodup_cons] at hnodup
    rcases List.mem_cons.mp hmem with rfl | h2
    · simp [Bot.alistGet]
    · have hk : e.1 ≠ k := by
        intro hc
        exact hnodup.1 (by
          rw [hc]
          exact List.mem_map.mpr ⟨(k, v), h2, rfl⟩)
      unfold Bot.alistGet
      rw [List.find?]
      have : (e.1 == k) = false := by simpa using hk
      rw [this]
      exact ih hnodup.2 h2

/-- C8: whenever some word qualifies as unique (exactly one distinct
author, length > 3, no digit), the stat builder takes the unique-word
branch and, for every random choice, its solution is the sole author of
the chosen word; the longest-message branch can only be taken when no
qualifying word exists. -/
theorem statle_unique_word (msgs : List Bot.Msg) (dl : String) (rw re : Nat) :
    ((msgs ≠ []) →
      Bot.rareWordEntries (Bot.buildWordUserMap (Bot.groupByAuthor msgs)) ≠ [] →
      ∃ p, Bot.buildStatlePayload msgs dl rw re = some p ∧
        ∃ w messages reactions, p.stats = .uniqueWord w messages reactions ∧
          Bot.alistGet (Bot.buildWordUserMap (Bot.groupByAuthor msgs)) w
            = some [p.solution_user_id]) ∧
    (∀ p messages len reactions, Bot.buildStatlePayload msgs dl rw re = some p →
      p.stats = .longestMessage messages len reactions →
      Bot.rareWordEntries (Bot.buildWordUserMap (Bot.groupByAuthor msgs)) = []) := by
  constructor
  · intro hne hr
    unfold Bot.buildStatlePayload
    rw [if_neg (by simpa using hne)]
    dsimp only
    set byUser := Bot.groupByAuthor msgs with hby
    set wum := Bot.buildWordUserMap byUser with hwum
    set rares := Bot.rareWordEntries wum with hrares
    have hlen : 0 < (rares.map (fun e => e.1)).length := by
      simpa [List.length_pos] using hr
    have hidx : rw % (rares.map (fun e => e.1)).length < (rares.map (fun e => e.1)).length :=
      Nat.mod_lt _ hlen
    rw [List.get?_eq_get hidx]
    set entry := rares.get ⟨rw % (rares.map (fun e => e.1)).length, by simpa using hidx⟩
      with hentry
    have hw : (rares.map (fun e => e.1)).get ⟨rw % (rares.map (fun e => e.1)).length, hidx⟩
        = entry.1 := by
      rw [hentry, List.get_map]
    have hmem : entry ∈ rares := by
      rw [hentry]
      exact List.get_mem _ _ _
    rw [hrares] at hmem
    unfold Bot.rareWordEntries at hmem
    have hfa := List.of_mem_filter hmem
    have hfilter : entry ∈ wum ∧ (entry.2.length == 1 && 3 < entry.1.length &&
        ¬ entry.1.toList.any Char.isDigit) = true :=
      ⟨List.mem_of_mem_filter hmem, hfa⟩
    have hone : entry.2.length = 1 := by
      have := hfilter.2
      simp only [Bool.and_eq_true, beq_iff_eq] at this
      exact this.1.1
    obtain ⟨u, hu⟩ := List.length_eq_one.mp hone
    have hget : Bot.alistGet wum entry.1 = some entry.2 :=
      alistGet_of_mem_nodup wum entry.1 entry.2 (nodup_keys_buildWordUserMap byUser)
        (by rw [show (entry.1, entry.2) = entry from rfl]; exact hfilter.1)
    rw [hw]
    dsimp only
    rw [hget, hu]
    simp only [Option.getD_some]
    refine ⟨_, rfl, entry.1, _, _, rfl, ?_⟩
    dsimp only
    rw [hget, hu]
  · intro p messages len reactions hp hstats
    by_contra hr
    unfold Bot.buildStatlePayload at hp
    rw [if_neg ?hne] at hp
    case hne =>
      intro hc
      apply hr
      rw [show Bot.groupByAuthor msgs = [] by
        rw [show msgs = [] by simpa using hc]
        rfl]
      rfl
    dsimp only at hp
    set rares := Bot.rareWordEntries (Bot.buildWordUserMap (Bot.groupByAuthor msgs))
      with hrares
    have hlen : 0 < (rares.map (fun e => e.1)).length := by
      simpa [List.length_pos] using hr
    rw [List.get?_eq_get (Nat.mod_lt _ hlen)] at hp
    dsimp only at hp
    split at hp
    · exact absurd hp (by simp)
    · rename_i cu rest heq
      simp only [Option.some.injEq] at hp
      subst hp
      exact absurd hstats (by simp)

/-- Witness for `statle_unique_word` at a two-author sample where
`"zebra"` is a unique word of the first author. -/
theorem statle_unique_word_witness :
    ∃ p, Bot.buildStatlePayload
        [⟨1, "u1", 0, "zebra says hi", 0, 0, [], none⟩,
         ⟨2, "u2", 0, "says hi too", 0, 0, [], none⟩] "2024-01-01" 0 0 = some p ∧
      ∃ w messages reactions, p.stats = .uniqueWord w messages reactions ∧
        Bot.alistGet (Bot.buildWordUserMap (Bot.groupByAuthor
          [⟨1, "u1", 0, "zebra says hi", 0, 0, [], none⟩,
           ⟨2, "u2", 0, "says hi too", 0, 0, [], none⟩])) w = some [p.solution_user_id] :=
  (statle_unique_word
    [⟨1, "u1", 0, "zebra says hi", 0, 0, [], none⟩,
     ⟨2, "u2", 0, "says hi too", 0, 0, [], none⟩] "2024-01-01" 0 0).1
    (by decide) (by decide)

theorem filter_eq_nil_of {α : Type} (p : α → Bool) (l : List α)
    (h : ∀ a ∈ l, p a = false) : l.filter p = [] := by
  induction l with
  | nil => rfl
  | cons a t ih =>
    rw [List.filter_cons, h a (by simp)]
    exact ih (fun b hb => h b (by simp [hb]))

theorem scanChannelPages_spec (opts : Bot.ScanOptions) (optedInSet : List String)
    (minTarget : Nat) (ch : Bot.Channel) (chIdx : Nat) :
    ∀ (fuel : Nat) (lastId : Option Nat) (st : Bot.ScanState),
      ∃ new : List Bot.FetchEvent,
        (Bot.scanChannelPages opts optedInSet minTarget ch chIdx fuel lastId st).trace
            = st.trace ++ new ∧
        new.length ≤ fuel ∧
        (∀ e ∈ new, e.channelIdx = chIdx ∧ e.collectedBefore < opts.totalLimit) ∧
        (Bot.scanChannelPages opts optedInSet minTarget ch chIdx fuel lastId st).fetches
            = st.fetches + new.length ∧
        (st.fetches ≤ opts.maxTotalFetches →
          (Bot.scanChannelPages opts optedInSet minTarget ch chIdx fuel lastId st).fetches
            ≤ opts.maxTotalFetches) := by
  intro fuel
  induction fuel with
  | zero =>
    intro lastId st
    exact ⟨[], by simp [Bot.scanChannelPages], by simp, by simp,
      by simp [Bot.scanChannelPages], fun h => by simpa [Bot.scanChannelPages] using h⟩
  | succ n ih =>
    intro lastId st
    have heq : Bot.scanChannelPages opts optedInSet minTarget ch chIdx (n + 1) lastId st
        = if opts.totalLimit ≤ st.collected.length then st
          else if opts.maxTotalFetches ≤ st.fetches then { st with stopAll := true }
          else
            let fetched := Bot.fetchPage ch.messages lastId opts.perPage
            let st1 : Bot.ScanState :=
              { st with
                fetches := st.fetches + 1
                trace := st.trace ++ [⟨chIdx, st.collected.length⟩] }
            if fetched.isEmpty then st1
            else
              let st2 : Bot.ScanState :=
                { st1 with
                  collected := st1.collected ++ fetched.filter (Bot.msgIncluded opts optedInSet) }
              if fetched.length < opts.perPage then st2
              else if minTarget ≤ st2.collected.length then { st2 with stopAll := true }
              else Bot.scanChannelPages opts optedInSet minTarget ch chIdx n
                ((fetched.getLast?).map (fun m => m.id)) st2 := rfl
    rw [heq]
    by_cases h1 : opts.totalLimit ≤ st.collected.length
    · rw [if_pos h1]
      exact ⟨[], by simp, by simp, by simp, by simp, fun h => h⟩
    · rw [if_neg h1]
      by_cases h2 : opts.maxTotalFetches ≤ st.fetches
      · rw [if_pos h2]
        exact ⟨[], by simp, by simp, by simp, by simp, fun h => h⟩
      · rw [if_neg h2]
        dsimp only
        have hev : (⟨chIdx, st.collected.length⟩ : Bot.FetchEvent).channelIdx = chIdx ∧
            (⟨chIdx, st.collected.length⟩ : Bot.FetchEvent).collectedBefore
              < opts.totalLimit :=
          ⟨rfl, lt_of_not_le h1⟩
        have hstep : st.fetches + 1 ≤ opts.maxTotalFetches :=
          Nat.succ_le_of_lt (lt_of_not_le h2)
        by_cases h3 : (Bot.fetchPage ch.messages lastId opts.perPage).isEmpty
        · rw [if_pos h3]
          refine ⟨[⟨chIdx, st.collected.length⟩], rfl, by simp, ?_, rfl, fun _ => hstep⟩
          intro e he
          rw [List.mem_singleton.mp he]
          exact hev
        · rw [if_neg h3]
          by_cases h4 : (Bot.fetchPage ch.messages lastId opts.perPage).length < opts.perPage
          · rw [if_pos h4]
            refine ⟨[⟨chIdx, st.collected.length⟩], rfl, by simp, ?_, rfl, fun _ => hstep⟩
            intro e he
            rw [List.mem_singleton.mp he]
            exact hev
          · rw [if_neg h4]
            by_cases h5 : minTarget ≤ st.collected.length +
                ((Bot.fetchPage ch.messages lastId opts.perPage).filter
                  (Bot.msgIncluded opts optedInSet)).length
            · rw [if_pos (by simpa using h5)]
              refine ⟨[⟨chIdx, st.collected.length⟩], rfl, by simp, ?_, rfl, fun _ => hstep⟩
              intro e he
              rw [List.mem_singleton.mp he]
              exact hev
            · rw [if_neg (by simpa using h5)]
              obtain ⟨new2, htr, hlen, hmem, hfet, himp⟩ := ih
                ((Bot.fetchPage ch.messages lastId opts.perPage).getLast?.map (fun m => m.id))
                ⟨st.collected ++ (Bot.fetchPage ch.messages lastId opts.perPage).filter
                    (Bot.msgIncluded opts optedInSet),
                  st.fetches + 1,
                  st.trace ++ [⟨chIdx, st.collected.length⟩], st.stopAll⟩
              refine ⟨⟨chIdx, st.collected.length⟩ :: new2, ?_, ?_, ?_, ?_, ?_⟩
              · rw [htr]
                simp
              · simpa using Nat.succ_le_succ hlen
              · intro e he
                rcases List.mem_cons.mp he with rfl | h6
                · exact hev
                · exact hmem e h6
              · rw [hfet]
                dsimp only
                simp only [List.length_cons]
                omega
              · intro _
                exact himp hstep

theorem scanChannels_spec (opts : Bot.ScanOptions) (optedInSet : List String)
    (minTarget : Nat) :
    ∀ (chs : List Bot.Channel) (idx : Nat) (st : Bot.ScanState),
      ∃ new : List Bot.FetchEvent,
        (Bot.scanChannels opts optedInSet minTarget chs idx st).trace = st.trace ++ new ∧
        (∀ e ∈ new, idx ≤ e.channelIdx ∧ e.collectedBefore < opts.totalLimit) ∧
        (∀ i, (new.filter (fun e => e.channelIdx == i)).length ≤ opts.maxPages) ∧
        (Bot.scanChannels opts optedInSet minTarget chs idx st).fetches
            = st.fetches + new.length ∧
        (st.fetches ≤ opts.maxTotalFetches →
          (Bot.scanChannels opts optedInSet minTarget chs idx st).fetches
            ≤ opts.maxTotalFetches) := by
  intro chs
  induction chs with
  | nil =>
    intro idx st
    exact ⟨[], by simp [Bot.scanChannels], by simp, by simp,
      by simp [Bot.scanChannels], fun h => by simpa [Bot.scanChannels] using h⟩
  | cons ch rest ih =>
    intro idx st
    cases hstop : st.stopAll with
    | true =>
      refine ⟨[], ?_, by simp, by simp, ?_, ?_⟩
      · simp [Bot.scanChannels, hstop]
      · simp [Bot.scanChannels, hstop]
      · intro h
        simpa [Bot.scanChannels, hstop] using h
    | false =>
      have hcall : Bot.scanChannels opts optedInSet minTarget (ch :: rest) idx st
          = Bot.scanChannels opts optedInSet minTarget rest (idx + 1)
            (Bot.scanChannelPages opts optedInSet minTarget ch idx opts.maxPages none st) := by
        rw [Bot.scanChannels, if_neg (by simp [hstop])]
      obtain ⟨n1, ht1, hl1, hm1, hf1, hi1⟩ :=
        scanChannelPages_spec opts optedInSet minTarget ch idx opts.maxPages none st
      obtain ⟨n2, ht2, hm2, hc2, hf2, hi2⟩ := ih (idx + 1)
        (Bot.scanChannelPages opts optedInSet minTarget ch idx opts.maxPages none st)
      refine ⟨n1 ++ n2, ?_, ?_, ?_, ?_, ?_⟩
      · rw [hcall, ht2, ht1, List.append_assoc]
      · intro e he
        rcases List.mem_append.mp he with h6 | h6
        · exact ⟨le_of_eq (hm1 e h6).1.symm, (hm1 e h6).2⟩
        · exact ⟨Nat.le_of_succ_le (hm2 e h6).1, (hm2 e h6).2⟩
      · intro i
        rw [List.filter_append, List.length_append]
        by_cases hi : i = idx
        · have h7 : n2.filter (fun e => e.channelIdx == i) = [] := by
            refine filter_eq_nil_of _ _ (fun e he => ?_)
            have := (hm2 e he).1
            simp only [beq_eq_false_iff_ne, ne_eq]
            omega
          rw [h7]
          simpa using le_trans (List.length_filter_le _ _) hl1
        · have h7 : n1.filter (fun e => e.channelIdx == i) = [] := by
            refine filter_eq_nil_of _ _ (fun e he => ?_)
            have := (hm1 e he).1
            simp only [beq_eq_false_iff_ne, ne_eq]
            omega
          rw [h7]
          simpa using hc2 i
      · rw [hcall, hf2, hf1, List.length_append]
        omega
      · intro h
        rw [hcall]
        exact hi2 (hi1 h)

/-- C9 (amended): the bounded fallback scan respects its budgets and
order: it never performs more than `maxTotalFetches` page fetches in
total (the ghost trace records exactly one event per fetch) nor more
than `maxPages` fetches in any one channel; no fetch starts once the
collected sample has reached `totalLimit`; channels are scanned
most-recently-active first (by last-message snowflake, channels without
one last); and a set stop flag (the source's labelled `break scanLoop`,
raised by the budget check and by the min-target check after a full
page) skips every remaining channel.  The min-target check alone stops
the scan only at the full-page checkpoint: after a partial page the
scan proceeds to the next channel even when the minimum sample size is
already met (see the counterexample). -/
theorem collect_scan_budgets (channels : List Bot.Channel) (optedInSet : List String)
    (opts : Bot.ScanOptions) :
    ((Bot.collectRecentOptInMessagesCore channels optedInSet opts).fetches
        ≤ opts.maxTotalFetches) ∧
    ((Bot.collectRecentOptInMessagesCore channels optedInSet opts).trace.length
        = (Bot.collectRecentOptInMessagesCore channels optedInSet opts).fetches) ∧
    (∀ i, (((Bot.collectRecentOptInMessagesCore channels optedInSet opts).trace.filter
        (fun e => e.channelIdx == i)).length ≤ opts.maxPages)) ∧
    (∀ e ∈ (Bot.collectRecentOptInMessagesCore channels optedInSet opts).trace,
      e.collectedBefore < opts.totalLimit) ∧
    List.Pairwise
      (fun a b => Bot.toSnowflake b.lastMessageId ≤ Bot.toSnowflake a.lastMessageId)
      (Bot.getChannelScanList channels) ∧
    (∀ chs idx st, st.stopAll = true →
      Bot.scanChannels opts optedInSet (min opts.minMessageCount opts.totalLimit)
        chs idx st = st) := by
  obtain ⟨new, ht, hm, hc, hf, hi⟩ :=
    scanChannels_spec opts optedInSet (min opts.minMessageCount opts.totalLimit)
      (Bot.getChannelScanList channels) 0 ⟨[], 0, [], false⟩
  have hcore : Bot.collectRecentOptInMessagesCore channels optedInSet opts
      = Bot.scanChannels opts optedInSet (min opts.minMessageCount opts.totalLimit)
        (Bot.getChannelScanList channels) 0 ⟨[], 0, [], false⟩ := rfl
  refine ⟨?_, ?_, ?_, ?_, ?_, ?_⟩
  · rw [hcore]
    exact hi (Nat.zero_le _)
  · rw [hcore, ht, hf]
    simp
  · intro i
    rw [hcore, ht]
    simpa using hc i
  · intro e he
    rw [hcore, ht] at he
    exact (hm e (by simpa using he)).2
  · haveI : IsTotal Bot.Channel
        (fun a b => Bot.toSnowflake b.lastMessageId ≤ Bot.toSnowflake a.lastMessageId) :=
      ⟨fun a b => Nat.le_total _ _⟩
    haveI : IsTrans Bot.Channel
        (fun a b => Bot.toSnowflake b.lastMessageId ≤ Bot.toSnowflake a.lastMessageId) :=
      ⟨fun _ _ _ hab hbc => le_trans hbc hab⟩
    exact List.sorted_insertionSort _ channels
  · intro chs idx st h
    cases chs with
    | nil => rfl
    | cons ch rest => simp [Bot.scanChannels, h]

/-- Witness for `collect_scan_budgets`: on a one-channel guild, a state
with the stop flag set is returned unchanged by the channel loop. -/
theorem collect_scan_budgets_witness :
    Bot.scanChannels ⟨100, 25, 500, 15, 200, none⟩ ["u1"] (min 15 500)
      [⟨none, []⟩] 0 ⟨[], 0, [], true⟩ = ⟨[], 0, [], true⟩ :=
  (collect_scan_budgets [⟨none, []⟩] ["u1"] ⟨100, 25, 500, 15, 200, none⟩).2.2.2.2.2
    [⟨none, []⟩] 0 ⟨[], 0, [], true⟩ rfl

/-- Counterexample to C9 as stated: with the default budgets, a first
channel whose single partial page yields 16 opted-in messages already
meets the minimum sample size of 15, yet the scan still fetches a page
from the second channel (trace event ⟨1, 16⟩) — reaching the minimum
does not stop the scan after a partial page. -/
theorem collect_scan_min_stop_counterexample :
    (Bot.collectRecentOptInMessagesCore
        [⟨some "20", (List.range 16).map (fun k => ⟨k + 1, "u1", 0, "", 0, 0, [], none⟩)⟩,
         ⟨some "5", [⟨100, "u2", 0, "", 0, 0, [], none⟩]⟩]
        ["u1", "u2"] ⟨100, 25, 500, 15, 200, none⟩).trace
      = [⟨0, 0⟩, ⟨1, 16⟩] ∧
    ((Bot.collectRecentOptInMessagesCore
        [⟨some "20", (List.range 16).map (fun k => ⟨k + 1, "u1", 0, "", 0, 0, [], none⟩)⟩,
         ⟨some "5", [⟨100, "u2", 0, "", 0, 0, [], none⟩]⟩]
        ["u1", "u2"] ⟨100, 25, 500, 15, 200, none⟩).trace.any
      (fun e => decide (15 ≤ e.collectedBefore))) = true := by
  constructor
  · decide
  · decide

/-- C5: the pipeline tries the yesterday UTC day range, then today's:
the two ranges passed to the range loop are adjacent midnight-to-midnight
UTC days (yesterday's start is one day before today's and it ends one
millisecond before today starts); if yesterday's collected messages
survive the opt-in filter nonempty, the loop returns that filtered
sample paired with the yesterday range — today's range is not consulted;
only when yesterday yields nothing does a nonempty filtered today sample
win; with both empty the loop yields none; and the winning range's
calendar date is the ISO date of its start, which becomes the sample's
date label. -/
theorem range_selection (channels : List Bot.Channel) (optedInSet : List String)
    (nowMs : Int) :
    (Bot.getDayRangeUtc nowMs (-1)).startMs
        = (Bot.getDayRangeUtc nowMs 0).startMs - 86400000 ∧
    (Bot.getDayRangeUtc nowMs (-1)).endMs = (Bot.getDayRangeUtc nowMs 0).startMs - 1 ∧
    ((Bot.filterMessagesByOptIn
          (Bot.collectMessagesForRange channels (Bot.getDayRangeUtc nowMs (-1)).startMs
            (Bot.getDayRangeUtc nowMs (-1)).endMs).allMessages optedInSet).allMessages ≠ [] →
      Bot.selectRangeSample channels optedInSet
          [Bot.getDayRangeUtc nowMs (-1), Bot.getDayRangeUtc nowMs 0]
        = some (Bot.filterMessagesByOptIn
            (Bot.collectMessagesForRange channels (Bot.getDayRangeUtc nowMs (-1)).startMs
              (Bot.getDayRangeUtc nowMs (-1)).endMs).allMessages optedInSet,
            Bot.getDayRangeUtc nowMs (-1))) ∧
    ((Bot.filterMessagesByOptIn
          (Bot.collectMessagesForRange channels (Bot.getDayRangeUtc nowMs (-1)).startMs
            (Bot.getDayRangeUtc nowMs (-1)).endMs).allMessages optedInSet).allMessages = [] →
      (Bot.filterMessagesByOptIn
          (Bot.collectMessagesForRange channels (Bot.getDayRangeUtc nowMs 0).startMs
            (Bot.getDayRangeUtc nowMs 0).endMs).allMessages optedInSet).allMessages ≠ [] →
      Bot.selectRangeSample channels optedInSet
          [Bot.getDayRangeUtc nowMs (-1), Bot.getDayRangeUtc nowMs 0]
        = some (Bot.filterMessagesByOptIn
            (Bot.collectMessagesForRange channels (Bot.getDayRangeUtc nowMs 0).startMs
              (Bot.getDayRangeUtc nowMs 0).endMs).allMessages optedInSet,
            Bot.getDayRangeUtc nowMs 0)) ∧
    ((Bot.filterMessagesByOptIn
          (Bot.collectMessagesForRange channels (Bot.getDayRangeUtc nowMs (-1)).startMs
            (Bot.getDayRangeUtc nowMs (-1)).endMs).allMessages optedInSet).allMessages = [] →
      (Bot.filterMessagesByOptIn
          (Bot.collectMessagesForRange channels (Bot.getDayRangeUtc nowMs 0).startMs
            (Bot.getDayRangeUtc nowMs 0).endMs).allMessages optedInSet).allMessages = [] →
      Bot.selectRangeSample channels optedInSet
          [Bot.getDayRangeUtc nowMs (-1), Bot.getDayRangeUtc nowMs 0] = none) ∧
    (∀ fs r, Bot.selectRangeSample channels optedInSet
          [Bot.getDayRangeUtc nowMs (-1), Bot.getDayRangeUtc nowMs 0] = some (fs, r) →
      r.dateLabel = Bot.isoDateOfMs r.startMs) := by
  have hsel : ∀ (r : Bot.DayRange) (rest : List Bot.DayRange),
      Bot.selectRangeSample channels optedInSet (r :: rest)
        = if (Bot.collectMessagesForRange channels r.startMs r.endMs).allMessages.isEmpty then
            Bot.selectRangeSample channels optedInSet rest
          else if (Bot.filterMessagesByOptIn
              (Bot.collectMessagesForRange channels r.startMs r.endMs).allMessages
              optedInSet).allMessages.isEmpty then
            Bot.selectRangeSample channels optedInSet rest
          else some (Bot.filterMessagesByOptIn
              (Bot.collectMessagesForRange channels r.startMs r.endMs).allMessages optedInSet,
            r) :=
    fun r rest => rfl
  have hbe : ∀ (l : List Bot.Msg), l ≠ [] → l.isEmpty = false := by
    intro l h
    cases l with
    | nil => exact absurd rfl h
    | cons a t => rfl
  have hsub : ∀ (l : List Bot.Msg) (ss : List String),
      (Bot.filterMessagesByOptIn l ss).allMessages ≠ [] → l ≠ [] := by
    intro l ss h hl
    apply h
    rw [show (Bot.filterMessagesByOptIn l ss).allMessages
        = l.filter (fun m => ss.contains m.authorId) from rfl, hl]
    rfl
  refine ⟨?_, ?_, ?_, ?_, ?_, ?_⟩
  · show nowMs.ediv 86400000 * 86400000 + (-1) * 24 * 60 * 60 * 1000
        = nowMs.ediv 86400000 * 86400000 + 0 * 24 * 60 * 60 * 1000 - 86400000
    ring
  · show nowMs.ediv 86400000 * 86400000 + (-1) * 24 * 60 * 60 * 1000 + 24 * 60 * 60 * 1000 - 1
        = nowMs.ediv 86400000 * 86400000 + 0 * 24 * 60 * 60 * 1000 - 1
    ring
  · intro h
    rw [hsel, if_neg (by simp [hbe _ (hsub _ _ h)]), if_neg (by simp [hbe _ h])]
  · intro h1 h2
    have htail : Bot.selectRangeSample channels optedInSet [Bot.getDayRangeUtc nowMs 0]
        = some (Bot.filterMessagesByOptIn
            (Bot.collectMessagesForRange channels (Bot.getDayRangeUtc nowMs 0).startMs
              (Bot.getDayRangeUtc nowMs 0).endMs).allMessages optedInSet,
            Bot.getDayRangeUtc nowMs 0) := by
      rw [hsel, if_neg (by simp [hbe _ (hsub _ _ h2)]), if_neg (by simp [hbe _ h2])]
    rw [hsel]
    by_cases hraw : (Bot.collectMessagesForRange channels
        (Bot.getDayRangeUtc nowMs (-1)).startMs
        (Bot.getDayRangeUtc nowMs (-1)).endMs).allMessages.isEmpty = true
    · rw [if_pos hraw]
      exact htail
    · rw [if_neg hraw, if_pos (by rw [h1]; rfl)]
      exact htail
  · intro h1 h2
    have htail : Bot.selectRangeSample channels optedInSet [Bot.getDayRangeUtc nowMs 0]
        = none := by
      rw [hsel]
      by_cases hraw : (Bot.collectMessagesForRange channels
          (Bot.getDayRangeUtc nowMs 0).startMs
          (Bot.getDayRangeUtc nowMs 0).endMs).allMessages.isEmpty = true
      · rw [if_pos hraw]
        rfl
      · rw [if_neg hraw, if_pos (by rw [h2]; rfl)]
        rfl
    rw [hsel]
    by_cases hraw : (Bot.collectMessagesForRange channels
        (Bot.getDayRangeUtc nowMs (-1)).startMs
        (Bot.getDayRangeUtc nowMs (-1)).endMs).allMessages.isEmpty = true
    · rw [if_pos hraw]
      exact htail
    · rw [if_neg hraw, if_pos (by rw [h1]; rfl)]
      exact htail
  · intro fs r hsome
    have hy : (Bot.getDayRangeUtc nowMs (-1)).dateLabel
        = Bot.isoDateOfMs (Bot.getDayRangeUtc nowMs (-1)).startMs := rfl
    have ht : (Bot.getDayRangeUtc nowMs 0).dateLabel
        = Bot.isoDateOfMs (Bot.getDayRangeUtc nowMs 0).startMs := rfl
    have htoday : Bot.selectRangeSample channels optedInSet [Bot.getDayRangeUtc nowMs 0]
        = some (fs, r) → r.dateLabel = Bot.isoDateOfMs r.startMs := by
      intro h4
      rw [hsel] at h4
      by_cases hraw : (Bot.collectMessagesForRange channels
          (Bot.getDayRangeUtc nowMs 0).startMs
          (Bot.getDayRangeUtc nowMs 0).endMs).allMessages.isEmpty = true
      · rw [if_pos hraw] at h4
        exact absurd h4 (by simp [Bot.selectRangeSample])
      · rw [if_neg hraw] at h4
        by_cases hflt : (Bot.filterMessagesByOptIn
            (Bot.collectMessagesForRange channels (Bot.getDayRangeUtc nowMs 0).startMs
              (Bot.getDayRangeUtc nowMs 0).endMs).allMessages
            optedInSet).allMessages.isEmpty = true
        · rw [if_pos hflt] at h4
          exact absurd h4 (by simp [Bot.selectRangeSample])
        · rw [if_neg hflt] at h4
          simp only [Option.some.injEq, Prod.mk.injEq] at h4
          rw [← h4.2]
          exact ht
    rw [hsel] at hsome
    by_cases hraw : (Bot.collectMessagesForRange channels
        (Bot.getDayRangeUtc nowMs (-1)).startMs
        (Bot.getDayRangeUtc nowMs (-1)).endMs).allMessages.isEmpty = true
    · rw [if_pos hraw] at hsome
      exact htoday hsome
    · rw [if_neg hraw] at hsome
      by_cases hflt : (Bot.filterMessagesByOptIn
          (Bot.collectMessagesForRange channels (Bot.getDayRangeUtc nowMs (-1)).startMs
            (Bot.getDayRangeUtc nowMs (-1)).endMs).allMessages
          optedInSet).allMessages.isEmpty = true
      · rw [if_pos hflt] at hsome
        exact htoday hsome
      · rw [if_neg hflt] at hsome
        simp only [Option.some.injEq, Prod.mk.injEq] at hsome
        rw [← hsome.2]
        exact hy

/-- Witness for `range_selection`: a single channel holding one opted-in
message falling in the yesterday range makes the yesterday sample win. -/
theorem range_selection_witness :
    (Bot.filterMessagesByOptIn
        (Bot.collectMessagesForRange [⟨some "1", [⟨1, "u1", 5000, "hi", 0, 0, [], none⟩]⟩]
          (Bot.getDayRangeUtc 100000000 (-1)).startMs
          (Bot.getDayRangeUtc 100000000 (-1)).endMs).allMessages ["u1"]).allMessages ≠ [] ∧
    Bot.selectRangeSample [⟨some "1", [⟨1, "u1", 5000, "hi", 0, 0, [], none⟩]⟩] ["u1"]
        [Bot.getDayRangeUtc 100000000 (-1), Bot.getDayRangeUtc 100000000 0]
      = some (Bot.filterMessagesByOptIn
          (Bot.collectMessagesForRange [⟨some "1", [⟨1, "u1", 5000, "hi", 0, 0, [], none⟩]⟩]
            (Bot.getDayRangeUtc 100000000 (-1)).startMs
            (Bot.getDayRangeUtc 100000000 (-1)).endMs).allMessages ["u1"],
          Bot.getDayRangeUtc 100000000 (-1)) :=
  ⟨by decide,
    (range_selection [⟨some "1", [⟨1, "u1", 5000, "hi", 0, 0, [], none⟩]⟩] ["u1"]
      100000000).2.2.1 (by decide)⟩

theorem mem_keys_of_alistGet_isSome {β : Type} (m : List (String × β)) (k : String)
    (h : (Bot.alistGet m k).isSome = true) : k ∈ m.map (fun e => e.1) := by
  unfold Bot.alistGet at h
  cases hf : m.find? (fun e => e.1 == k) with
  | none => rw [hf] at h; simp at h
  | some e =>
    have hm := List.mem_of_find?_eq_some hf
    have hk := List.find?_some hf
    simp only [beq_iff_eq] at hk
    exact List.mem_map.mpr ⟨e, hm, hk⟩

/-- When some opted-in member is present, the pipeline takes the
generating branch, and its name map, metrics map and allowed-username
list have the shapes read off the source; otherwise it returns the
`no_opted_in` result. -/
theorem generate_maps_shape (env : Bot.PipelineEnv) (rand : Bot.PipelineRand) :
    ((env.optInUsers.filter (fun uid => (Bot.alistGet env.membersMap uid).isSome)).isEmpty
        = true ∧
      Bot.generatePuzzlesForGuild env rand = Bot.emptyPipelineResult) ∨
    ((env.optInUsers.filter (fun uid => (Bot.alistGet env.membersMap uid).isSome)).isEmpty
        = false ∧
      (Bot.generatePuzzlesForGuild env rand).generated = true ∧
      (Bot.generatePuzzlesForGuild env rand).nameMap
        = env.membersMap.map (fun e => (e.1, Bot.getDisplayName e.2)) ∧
      (∃ M, (Bot.generatePuzzlesForGuild env rand).metricsMap
        = env.membersMap.map (fun e =>
            (e.1, Bot.computeMetrics env.nowMs ((Bot.alistGet M e.1).getD []) e.2))) ∧
      (Bot.generatePuzzlesForGuild env rand).allowedUsernames
        = ((env.optInUsers.filter (fun uid => (Bot.alistGet env.membersMap uid).isSome)).filterMap
            (fun uid =>
              Bot.alistGet (env.membersMap.map (fun e => (e.1, Bot.getDisplayName e.2))) uid)).filter
          (fun n => n != "")) := by
  unfold Bot.generatePuzzlesForGuild
  dsimp only
  by_cases hopt : (env.optInUsers.filter
      (fun uid => (Bot.alistGet env.membersMap uid).isSome)).isEmpty = true
  · rw [if_pos hopt]
    exact Or.inl ⟨hopt, rfl⟩
  · rw [if_neg hopt]
    exact Or.inr ⟨by simpa using hopt, rfl, rfl, ⟨_, rfl⟩, rfl⟩

theorem computeMetrics_of_zero (nowMs : Int) (msgs : List Bot.Msg) (member : Bot.Member)
    (h : (Bot.computeMetrics nowMs msgs member).messageCount = 0) :
    (Bot.computeMetrics nowMs msgs member).activeWindow = "Not active" ∧
      (Bot.computeMetrics nowMs msgs member).mentions = 0 ∧
      (Bot.computeMetrics nowMs msgs member).firstMessageBucket = none ∧
      (Bot.computeMetrics nowMs msgs member).topWord = none := by
  cases msgs with
  | nil => exact ⟨rfl, rfl, rfl, rfl⟩
  | cons m0 rest => exact absurd h (by simp [Bot.computeMetrics])

/-- C4: on a generating run the metrics map holds exactly one entry for
every opted-in member present in the member map (assuming the fetched
member map has no duplicate ids), and any entry computed from zero
sampled messages carries the neutral fields: activeWindow "Not active",
zero mentions, and null firstMessageBucket and topWord. -/
theorem metrics_map_exactly_one (env : Bot.PipelineEnv) (rand : Bot.PipelineRand)
    (hnodup : (env.membersMap.map (fun e => e.1)).Nodup) :
    ((Bot.generatePuzzlesForGuild env rand).generated = true →
      ∀ uid ∈ env.optInUsers, (Bot.alistGet env.membersMap uid).isSome = true →
        ((Bot.generatePuzzlesForGuild env rand).metricsMap.map (fun e => e.1)).count uid
          = 1) ∧
    (∀ uid m, (uid, m) ∈ (Bot.generatePuzzlesForGuild env rand).metricsMap →
      m.messageCount = 0 →
      m.activeWindow = "Not active" ∧ m.mentions = 0 ∧
        m.firstMessageBucket = none ∧ m.topWord = none) := by
  rcases generate_maps_shape env rand with ⟨hopt, hempty⟩ |
    ⟨hopt, hgen, hname, ⟨M, hmet⟩, hallow⟩
  · constructor
    · intro hg
      rw [hempty] at hg
      exact absurd hg (by simp [Bot.emptyPipelineResult])
    · intro uid m hm
      rw [hempty] at hm
      exact absurd hm (by simp [Bot.emptyPipelineResult])
  · constructor
    · intro _ uid _ hsome
      rw [hmet]
      have hkeys : ((env.membersMap.map (fun e =>
          (e.1, Bot.computeMetrics env.nowMs ((Bot.alistGet M e.1).getD []) e.2))).map
            (fun e => e.1))
          = env.membersMap.map (fun e => e.1) := by
        simp [List.map_map, Function.comp]
      rw [hkeys]
      exact List.count_eq_one_of_mem hnodup (mem_keys_of_alistGet_isSome _ _ hsome)
    · intro uid m hm hzero
      rw [hmet] at hm
      obtain ⟨e, _, heq⟩ := List.mem_map.mp hm
      simp only [Prod.mk.injEq] at heq
      rw [← heq.2] at hzero ⊢
      exact computeMetrics_of_zero env.nowMs _ e.2 hzero

/-- Witness for `metrics_map_exactly_one` on a one-member guild whose
sole member is opted in. -/
theorem metrics_map_exactly_one_witness :
    ((Bot.generatePuzzlesForGuild
        ⟨["u1"], [("u1", ⟨"u1", none, none, "alice", 0⟩)], [], 0, 40, fun _ => ""⟩
        ⟨0, 0, 0, 0, fun _ => 0, 0, fun _ => 0, 0, 0, 0, 0, 0, 0⟩).metricsMap.map
      (fun e => e.1)).count "u1" = 1 :=
  (metrics_map_exactly_one
      ⟨["u1"], [("u1", ⟨"u1", none, none, "alice", 0⟩)], [], 0, 40, fun _ => ""⟩
      ⟨0, 0, 0, 0, fun _ => 0, 0, fun _ => 0, 0, 0, 0, 0, 0, 0⟩
      (by decide)).1 (by decide) "u1" (by decide) (by decide)

/-- C10: on a generating run the metadata name map and metrics map are
keyed by the full guild member map — members who never opted in
included — so their key lists equal the member-map key list and cover
every opted-in member present; any guild member outside the opt-in
registry still gets a name entry while staying outside the opted-in
set (making the key set a strict superset whenever such a member
exists); and every allowed username is the name-map entry of some
opted-in member present in the guild. -/
theorem metadata_membership (env : Bot.PipelineEnv) (rand : Bot.PipelineRand) :
    (Bot.generatePuzzlesForGuild env rand).generated = true →
    ((Bot.generatePuzzlesForGuild env rand).nameMap.map (fun e => e.1)
        = env.membersMap.map (fun e => e.1)) ∧
    ((Bot.generatePuzzlesForGuild env rand).metricsMap.map (fun e => e.1)
        = env.membersMap.map (fun e => e.1)) ∧
    (∀ uid ∈ env.optInUsers.filter (fun uid => (Bot.alistGet env.membersMap uid).isSome),
      uid ∈ (Bot.generatePuzzlesForGuild env rand).nameMap.map (fun e => e.1)) ∧
    (∀ uid, uid ∈ env.membersMap.map (fun e => e.1) → uid ∉ env.optInUsers →
      uid ∈ (Bot.generatePuzzlesForGuild env rand).nameMap.map (fun e => e.1) ∧
      uid ∉ env.optInUsers.filter (fun uid => (Bot.alistGet env.membersMap uid).isSome)) ∧
    (∀ n ∈ (Bot.generatePuzzlesForGuild env rand).allowedUsernames,
      ∃ uid ∈ env.optInUsers.filter (fun uid => (Bot.alistGet env.membersMap uid).isSome),
        Bot.alistGet (Bot.generatePuzzlesForGuild env rand).nameMap uid = some n) := by
  intro hgen
  rcases generate_maps_shape env rand with ⟨hopt, hempty⟩ |
    ⟨hopt, _, hname, ⟨M, hmet⟩, hallow⟩
  · rw [hempty] at hgen
    exact absurd hgen (by simp [Bot.emptyPipelineResult])
  · have hnk : (Bot.generatePuzzlesForGuild env rand).nameMap.map (fun e => e.1)
        = env.membersMap.map (fun e => e.1) := by
      rw [hname]
      simp [List.map_map, Function.comp]
    have hmk : (Bot.generatePuzzlesForGuild env rand).metricsMap.map (fun e => e.1)
        = env.membersMap.map (fun e => e.1) := by
      rw [hmet]
      simp [List.map_map, Function.comp]
    refine ⟨hnk, hmk, ?_, ?_, ?_⟩
    · intro uid huid
      rw [hnk]
      have hpred := List.of_mem_filter huid
      exact mem_keys_of_alistGet_isSome _ _ hpred
    · intro uid hmem hnot
      refine ⟨by rw [hnk]; exact hmem, ?_⟩
      intro hin
      exact hnot (List.mem_of_mem_filter hin)
    · intro n hn
      rw [hallow] at hn
      obtain ⟨uid, huid, hg⟩ := List.mem_filterMap.mp (List.mem_of_mem_filter hn)
      exact ⟨uid, huid, by rw [hname]; exact hg⟩

/-- Witness for `metadata_membership`: a guild with an opted-in member
and a non-opted-in member still lists the latter in the name map while
keeping it out of the opted-in set. -/
theorem metadata_membership_witness :
    "u2" ∈ (Bot.generatePuzzlesForGuild
        ⟨["u1"], [("u1", ⟨"u1", none, none, "alice", 0⟩),
                  ("u2", ⟨"u2", none, none, "bob", 0⟩)], [], 0, 40, fun _ => ""⟩
        ⟨0, 0, 0, 0, fun _ => 0, 0, fun _ => 0, 0, 0, 0, 0, 0, 0⟩).nameMap.map
      (fun e => e.1) ∧
    "u2" ∉ (["u1"].filter (fun uid => (Bot.alistGet
        [("u1", (⟨"u1", none, none, "alice", 0⟩ : Bot.Member)),
         ("u2", (⟨"u2", none, none, "bob", 0⟩ : Bot.Member))] uid).isSome)) :=
  (metadata_membership
      ⟨["u1"], [("u1", ⟨"u1", none, none, "alice", 0⟩),
                ("u2", ⟨"u2", none, none, "bob", 0⟩)], [], 0, 40, fun _ => ""⟩
      ⟨0, 0, 0, 0, fun _ => 0, 0, fun _ => 0, 0, 0, 0, 0, 0, 0⟩
      (by decide)).2.2.2.1 "u2" (by decide) (by decide)

theorem foldl_preserve_mem {α β : Type} (P : α → Prop) (f : α → β → α) :
    ∀ (l : List β), (∀ a b, b ∈ l → P a → P (f a b)) → ∀ a, P a → P (l.foldl f a) := by
  intro l
  induction l with
  | nil => intro _ a ha; exact ha
  | cons b t ih =>
    intro hstep a ha
    exact ih (fun a c hc hpa => hstep a c (by simp [hc]) hpa) (f a b)
      (hstep a b (by simp) ha)

theorem contains_true_iff (l : List String) (a : String) : l.contains a = true ↔ a ∈ l := by
  induction l with
  | nil => simp
  | cons b t ih =>
    simp only [List.contains_cons, Bool.or_eq_true, beq_iff_eq, List.mem_cons, ih]

theorem addToGroup_keys (P : String → Prop) (g : List (String × List Bot.Msg)) (m : Bot.Msg)
    (hg : ∀ e ∈ g, P e.1) (hm : P m.authorId) :
    ∀ e ∈ Bot.addToGroup g m, P e.1 := by
  induction g with
  | nil =>
    intro e he
    rw [List.mem_singleton.mp he]
    exact hm
  | cons e0 rest ih =>
    intro e he
    unfold Bot.addToGroup at he
    split at he
    · rcases List.mem_cons.mp he with rfl | h2
      · exact hg e0 (by simp)
      · exact hg e (by simp [h2])
    · rcases List.mem_cons.mp he with rfl | h2
      · exact hg e (by simp)
      · exact ih (fun e' he' => hg e' (by simp [he'])) e h2

theorem groupByAuthor_keys (P : String → Prop) (msgs : List Bot.Msg)
    (hmsgs : ∀ m ∈ msgs, P m.authorId) :
    ∀ e ∈ Bot.groupByAuthor msgs, P e.1 := by
  unfold Bot.groupByAuthor
  exact foldl_preserve_mem (fun acc => ∀ e ∈ acc, P e.1) Bot.addToGroup msgs
    (fun acc m hm hacc => addToGroup_keys P acc m hacc (hmsgs m hm)) [] (by simp)

theorem alistGet_eq_some {β : Type} (l : List (String × β)) (k : String) (v : β)
    (h : Bot.alistGet l k = some v) : ∃ e ∈ l, e.1 = k ∧ e.2 = v := by
  unfold Bot.alistGet at h
  cases hf : l.find? (fun e => e.1 == k) with
  | none => rw [hf] at h; exact absurd h (by simp)
  | some e =>
    rw [hf] at h
    simp only [Option.map_some', Option.some.injEq] at h
    have hk := List.find?_some hf
    simp only [beq_iff_eq] at hk
    exact ⟨e, List.mem_of_find?_eq_some hf, hk, h⟩

theorem addWordUser_values (P : String → Prop) (wum : List (String × List String))
    (w uid : String) (hw : ∀ e ∈ wum, ∀ u ∈ e.2, P u) (huid : P uid) :
    ∀ e ∈ Bot.addWordUser wum w uid, ∀ u ∈ e.2, P u := by
  induction wum with
  | nil =>
    intro e he u hu
    rw [List.mem_singleton.mp he] at hu
    rw [List.mem_singleton.mp hu]
    exact huid
  | cons e0 rest ih =>
    intro e he u hu
    unfold Bot.addWordUser at he
    split at he
    · rcases List.mem_cons.mp he with rfl | h2
      · dsimp only at hu
        split at hu
        · exact hw e0 (by simp) u hu
        · rcases List.mem_append.mp hu with h3 | h3
          · exact hw e0 (by simp) u h3
          · rw [List.mem_singleton.mp h3]
            exact huid
      · exact hw e (by simp [h2]) u hu
    · rcases List.mem_cons.mp he with rfl | h2
      · exact hw e (by simp) u hu
      · exact ih (fun e' he' => hw e' (by simp [he'])) e h2 u hu

theorem buildWordUserMap_values (P : String → Prop)
    (byUser : List (String × List Bot.Msg)) (hby : ∀ g ∈ byUser, P g.1) :
    ∀ e ∈ Bot.buildWordUserMap byUser, ∀ u ∈ e.2, P u := by
  unfold Bot.buildWordUserMap
  refine foldl_preserve_mem
    (fun (acc : List (String × List String)) => ∀ e ∈ acc, ∀ u ∈ e.2, P u)
    (fun acc g =>
      g.2.foldl (fun acc m =>
        (if m.content != "" then Bot.extractContentWords m.content else []).foldl
          (fun acc w => Bot.addWordUser acc w g.1) acc) acc)
    byUser ?_ [] (by simp)
  intro acc g hg hacc
  refine foldl_preserve
    (fun (acc : List (String × List String)) => ∀ e ∈ acc, ∀ u ∈ e.2, P u)
    (fun acc m =>
      (if m.content != "" then Bot.extractContentWords m.content else []).foldl
        (fun acc w => Bot.addWordUser acc w g.1) acc)
    ?_ g.2 acc hacc
  intro acc2 m hacc2
  refine foldl_preserve
    (fun (acc : List (String × List String)) => ∀ e ∈ acc, ∀ u ∈ e.2, P u)
    (fun acc w => Bot.addWordUser acc w g.1) ?_ _ acc2 hacc2
  intro acc3 w hacc3
  exact addWordUser_values P acc3 w g.1 hacc3 (hby g hg)

theorem buildFriendlePayload_solution (P : String → Prop) (optInUsers : List String)
    (byUser : List (String × List Bot.Msg)) (mm : List (String × Bot.Member))
    (dl : String) (nowMs : Int) (r : Nat) (f : Bot.FriendlePuzzle)
    (h : Bot.buildFriendlePayload optInUsers byUser mm dl nowMs r = some f)
    (hkeys : ∀ e ∈ byUser, P e.1) : P f.solution_user_id := by
  unfold Bot.buildFriendlePayload at h
  dsimp only at h
  split at h
  · exact absurd h (by simp)
  · rename_i entry hget
    split at h
    · exact absurd h (by simp)
    · simp only [Option.some.injEq] at h
      subst h
      exact hkeys entry (List.mem_of_mem_filter (List.get?_mem hget))

theorem buildFallbackFriendle_solution (oim : List String)
    (mm : List (String × Bot.Member)) (mx : List (String × Bot.ActivityMetrics))
    (dl : String) (nowMs : Int) (r : Nat) (f : Bot.FriendlePuzzle)
    (h : Bot.buildFallbackFriendleFromMetrics oim mm mx dl nowMs r = some f) :
    f.solution_user_id ∈ oim := by
  unfold Bot.buildFallbackFriendleFromMetrics at h
  split at h
  · exact absurd h (by simp)
  · rename_i userId hget
    simp only [Option.some.injEq] at h
    subst h
    exact List.get?_mem hget

theorem buildQuotelePayload_solution (P : String → Prop) (sha : String → String)
    (minQ : Nat) (msgs : List Bot.Msg) (dl : String) (r : Nat) (rs : Nat → Nat)
    (q : Bot.QuotelePuzzle)
    (h : Bot.buildQuotelePayload sha minQ msgs dl r rs = some q)
    (hmsgs : ∀ m ∈ msgs, P m.authorId) : P q.solution_user_id := by
  unfold Bot.buildQuotelePayload at h
  dsimp only at h
  split at h
  · exact absurd h (by simp)
  · rename_i msg hpick
    split at h
    · exact absurd h (by simp)
    · simp only [Option.some.injEq] at h
      subst h
      have hmem : msg ∈ Bot.longMsgsOf minQ msgs := List.get?_mem hpick
      exact hmsgs msg (List.mem_of_mem_filter (List.mem_of_mem_filter hmem))

theorem buildMedialePayload_solution (P : String → Prop) (msgs : List Bot.Msg)
    (dl : String) (r : Nat) (pz : Bot.MedialePuzzle)
    (h : Bot.buildMedialePayload msgs dl r = some pz)
    (hmsgs : ∀ m ∈ msgs, P m.authorId) : P pz.solution_user_id := by
  unfold Bot.buildMedialePayload at h
  dsimp only at h
  split at h
  · exact absurd h (by simp)
  · rename_i msg hpick
    split at h
    · exact absurd h (by simp)
    · rename_i att rest hatt
      simp only [Option.some.injEq] at h
      subst h
      exact hmsgs msg (List.mem_of_mem_filter (List.get?_mem hpick))

theorem longestFold_author (P : String → Prop) (msgs : List Bot.Msg)
    (hmsgs : ∀ m ∈ msgs, P m.authorId) :
    (msgs.foldl (fun acc m =>
        if m.content != "" && acc.2 < m.content.length then
          (some m.authorId, m.content.length)
        else acc) ((none : Option String), 0)).1 = none ∨
    ∃ u, (msgs.foldl (fun acc m =>
        if m.content != "" && acc.2 < m.content.length then
          (some m.authorId, m.content.length)
        else acc) ((none : Option String), 0)).1 = some u ∧ P u := by
  refine foldl_preserve_mem
    (fun (acc : Option String × Nat) => acc.1 = none ∨ ∃ u, acc.1 = some u ∧ P u)
    (fun acc m =>
      if m.content != "" && acc.2 < m.content.length then
        (some m.authorId, m.content.length)
      else acc)
    msgs ?_ ((none : Option String), 0) (Or.inl rfl)
  intro acc m hm hacc
  dsimp only
  split
  · exact Or.inr ⟨m.authorId, rfl, hmsgs m hm⟩
  · exact hacc

theorem buildStatlePayload_solution (P : String → Prop) (msgs : List Bot.Msg)
    (dl : String) (rw re : Nat) (p : Bot.StatlePuzzle)
    (h : Bot.buildStatlePayload msgs dl rw re = some p)
    (hmsgs : ∀ m ∈ msgs, P m.authorId) : P p.solution_user_id := by
  have hkeys : ∀ e ∈ Bot.groupByAuthor msgs, P e.1 := groupByAuthor_keys P msgs hmsgs
  unfold Bot.buildStatlePayload at h
  split at h
  · exact absurd h (by simp)
  · dsimp only at h
    split at h
    · rename_i w hw
      split at h
      · exact absurd h (by simp)
      · rename_i chosenUser tl hchosen
        simp only [Option.some.injEq] at h
        subst h
        cases halist : Bot.alistGet (Bot.buildWordUserMap (Bot.groupByAuthor msgs)) w with
        | none =>
          rw [halist] at hchosen
          exact absurd hchosen (by simp)
        | some v =>
          rw [halist] at hchosen
          simp only [Option.getD_some] at hchosen
          obtain ⟨e, hmem, hk, hv⟩ := alistGet_eq_some _ _ _ halist
          refine buildWordUserMap_values P (Bot.groupByAuthor msgs) hkeys e hmem
            chosenUser ?_
          rw [hv, hchosen]
          simp
    · split at h
      · rename_i uid hlong
        simp only [Option.some.injEq] at h
        subst h
        rcases longestFold_author P msgs hmsgs with hnone | ⟨u, hu, hPu⟩
        · rw [hnone] at hlong
          exact absurd hlong (by simp)
        · rw [hu] at hlong
          simp only [Option.some.injEq] at hlong
          rw [hlong] at hPu
          exact hPu
      · split at h
        · exact absurd h (by simp)
        · rename_i uid hget
          simp only [Option.some.injEq] at h
          subst h
          obtain ⟨e, hmem, he⟩ := List.mem_map.mp (List.get?_mem hget)
          rw [← he]
          exact hkeys e hmem

theorem selectRangeSample_pure (channels : List Bot.Channel) (oim : List String) :
    ∀ (rs : List Bot.DayRange) (fs : Bot.FilteredSample) (r : Bot.DayRange),
      Bot.selectRangeSample channels oim rs = some (fs, r) →
      (∀ m ∈ fs.allMessages, oim.contains m.authorId = true) ∧
      (∀ e ∈ fs.messagesByUser, oim.contains e.1 = true) := by
  intro rs
  induction rs with
  | nil =>
    intro fs r h
    exact absurd h (by simp [Bot.selectRangeSample])
  | cons r0 rest ih =>
    intro fs r h
    have hsel : Bot.selectRangeSample channels oim (r0 :: rest)
        = if (Bot.collectMessagesForRange channels r0.startMs r0.endMs).allMessages.isEmpty then
            Bot.selectRangeSample channels oim rest
          else if (Bot.filterMessagesByOptIn
              (Bot.collectMessagesForRange channels r0.startMs r0.endMs).allMessages
              oim).allMessages.isEmpty then
            Bot.selectRangeSample channels oim rest
          else some (Bot.filterMessagesByOptIn
              (Bot.collectMessagesForRange channels r0.startMs r0.endMs).allMessages oim,
            r0) := rfl
    rw [hsel] at h
    by_cases h1 : (Bot.collectMessagesForRange channels r0.startMs r0.endMs).allMessages.isEmpty
        = true
    · rw [if_pos h1] at h
      exact ih fs r h
    · rw [if_neg h1] at h
      by_cases h2 : (Bot.filterMessagesByOptIn
          (Bot.collectMessagesForRange channels r0.startMs r0.endMs).allMessages
          oim).allMessages.isEmpty = true
      · rw [if_pos h2] at h
        exact ih fs r h
      · rw [if_neg h2] at h
        simp only [Option.some.injEq, Prod.mk.injEq] at h
        rw [← h.1]
        constructor
        · intro m hm
          have hx := List.of_mem_filter hm
          exact hx
        · intro e he
          refine groupByAuthor_keys (fun uid => oim.contains uid = true) _ ?_ e he
          intro m hm
          have hx := List.of_mem_filter hm
          exact hx

theorem scanChannelPages_collected (opts : Bot.ScanOptions) (set0 : List String)
    (mt : Nat) (ch : Bot.Channel) (ci : Nat) :
    ∀ (fuel : Nat) (lastId : Option Nat) (st : Bot.ScanState) (m : Bot.Msg),
      m ∈ (Bot.scanChannelPages opts set0 mt ch ci fuel lastId st).collected →
      m ∈ st.collected ∨ Bot.msgIncluded opts set0 m = true := by
  intro fuel
  induction fuel with
  | zero =>
    intro lastId st m hm
    exact Or.inl hm
  | succ n ih =>
    intro lastId st m hm
    have heq : Bot.scanChannelPages opts set0 mt ch ci (n + 1) lastId st
        = if opts.totalLimit ≤ st.collected.length then st
          else if opts.maxTotalFetches ≤ st.fetches then { st with stopAll := true }
          else
            let fetched := Bot.fetchPage ch.messages lastId opts.perPage
            let st1 : Bot.ScanState :=
              { st with
                fetches := st.fetches + 1
                trace := st.trace ++ [⟨ci, st.collected.length⟩] }
            if fetched.isEmpty then st1
            else
              let st2 : Bot.ScanState :=
                { st1 with
                  collected := st1.collected ++ fetched.filter (Bot.msgIncluded opts set0) }
              if fetched.length < opts.perPage then st2
              else if mt ≤ st2.collected.length then { st2 with stopAll := true }
              else Bot.scanChannelPages opts set0 mt ch ci n
                ((fetched.getLast?).map (fun m => m.id)) st2 := rfl
    rw [heq] at hm
    by_cases h1 : opts.totalLimit ≤ st.collected.length
    · rw [if_pos h1] at hm
      exact Or.inl hm
    · rw [if_neg h1] at hm
      by_cases h2 : opts.maxTotalFetches ≤ st.fetches
      · rw [if_pos h2] at hm
        exact Or.inl hm
      · rw [if_neg h2] at hm
        dsimp only at hm
        have hsplit : m ∈ st.collected ++
            (Bot.fetchPage ch.messages lastId opts.perPage).filter
              (Bot.msgIncluded opts set0) →
            m ∈ st.collected ∨ Bot.msgIncluded opts set0 m = true := by
          intro hmm
          rcases List.mem_append.mp hmm with h4 | h4
          · exact Or.inl h4
          · exact Or.inr (List.of_mem_filter h4)
        by_cases h3 : (Bot.fetchPage ch.messages lastId opts.perPage).isEmpty
        · rw [if_pos h3] at hm
          exact Or.inl hm
        · rw [if_neg h3] at hm
          by_cases h4 : (Bot.fetchPage ch.messages lastId opts.perPage).length < opts.perPage
          · rw [if_pos h4] at hm
            exact hsplit hm
          · rw [if_neg h4] at hm
            by_cases h5 : mt ≤ st.collected.length +
                ((Bot.fetchPage ch.messages lastId opts.perPage).filter
                  (Bot.msgIncluded opts set0)).length
            · rw [if_pos (by simpa using h5)] at hm
              exact hsplit hm
            · rw [if_neg (by simpa using h5)] at hm
              rcases ih _ _ m hm with h6 | h6
              · exact hsplit h6
              · exact Or.inr h6

theorem scanChannels_collected (opts : Bot.ScanOptions) (set0 : List String) (mt : Nat) :
    ∀ (chs : List Bot.Channel) (idx : Nat) (st : Bot.ScanState) (m : Bot.Msg),
      m ∈ (Bot.scanChannels opts set0 mt chs idx st).collected →
      m ∈ st.collected ∨ Bot.msgIncluded opts set0 m = true := by
  intro chs
  induction chs with
  | nil =>
    intro idx st m hm
    exact Or.inl hm
  | cons ch rest ih =>
    intro idx st m hm
    cases hstop : st.stopAll with
    | true =>
      rw [Bot.scanChannels, if_pos (by simp [hstop])] at hm
      exact Or.inl hm
    | false =>
      rw [Bot.scanChannels, if_neg (by simp [hstop])] at hm
      rcases ih _ _ m hm with h1 | h1
      · exact scanChannelPages_collected opts set0 mt ch idx opts.maxPages none st m h1
      · exact Or.inr h1

theorem collectRecentOptInMessages_pure (channels : List Bot.Channel) (oim : List String)
    (opts : Bot.ScanOptions) :
    (∀ m ∈ (Bot.collectRecentOptInMessages channels oim opts).allMessages,
      oim.contains m.authorId = true) ∧
    (∀ e ∈ (Bot.collectRecentOptInMessages channels oim opts).messagesByUser,
      oim.contains e.1 = true) := by
  have hall : ∀ m ∈ (Bot.collectRecentOptInMessages channels oim opts).allMessages,
      oim.contains m.authorId = true := by
    intro m hm
    have hm2 : m ∈ List.insertionSort (fun a b => b.createdTimestamp ≤ a.createdTimestamp)
        (Bot.collectRecentOptInMessagesCore channels oim opts).collected := by
      by_cases hz : (opts.totalLimit == 0) = true
      · rw [show (Bot.collectRecentOptInMessages channels oim opts).allMessages
            = if opts.totalLimit == 0 then
                List.insertionSort (fun a b => b.createdTimestamp ≤ a.createdTimestamp)
                  (Bot.collectRecentOptInMessagesCore channels oim opts).collected
              else (List.insertionSort (fun a b => b.createdTimestamp ≤ a.createdTimestamp)
                  (Bot.collectRecentOptInMessagesCore channels oim opts).collected).take
                opts.totalLimit from rfl, if_pos hz] at hm
        exact hm
      · rw [show (Bot.collectRecentOptInMessages channels oim opts).allMessages
            = if opts.totalLimit == 0 then
                List.insertionSort (fun a b => b.createdTimestamp ≤ a.createdTimestamp)
                  (Bot.collectRecentOptInMessagesCore channels oim opts).collected
              else (List.insertionSort (fun a b => b.createdTimestamp ≤ a.createdTimestamp)
                  (Bot.collectRecentOptInMessagesCore channels oim opts).collected).take
                opts.totalLimit from rfl, if_neg hz] at hm
        exact List.mem_of_mem_take hm
    have hm3 : m ∈ (Bot.collectRecentOptInMessagesCore channels oim opts).collected :=
      (List.Perm.mem_iff (List.perm_insertionSort _ _)).mp hm2
    rcases scanChannels_collected opts oim (min opts.minMessageCount opts.totalLimit)
        (Bot.getChannelScanList channels) 0 ⟨[], 0, [], false⟩ m hm3 with h1 | h1
    · exact absurd h1 (by simp)
    · simp only [Bot.msgIncluded, Bool.and_eq_true] at h1
      exact h1.1
  refine ⟨hall, ?_⟩
  intro e he
  exact groupByAuthor_keys (fun uid => oim.contains uid = true) _ hall e he

/-- C1: every puzzle a pipeline run produces — any of the four variants,
whether built from the shared range sample, a builder-private fallback
scan, or the terminal metrics fallback — names a solution user who is in
the opt-in registry snapshot and present in the guild member map, and
the samples the builders consume (the opt-in filtered range sample and
every bounded fallback scan) contain only messages authored by such
users. -/
theorem pipeline_solutions_opted_in (env : Bot.PipelineEnv) (rand : Bot.PipelineRand) :
    (∀ f, (Bot.generatePuzzlesForGuild env rand).friendle = some f →
      f.solution_user_id ∈ env.optInUsers.filter
        (fun uid => (Bot.alistGet env.membersMap uid).isSome)) ∧
    (∀ q, (Bot.generatePuzzlesForGuild env rand).quotele = some q →
      q.solution_user_id ∈ env.optInUsers.filter
        (fun uid => (Bot.alistGet env.membersMap uid).isSome)) ∧
    (∀ pz, (Bot.generatePuzzlesForGuild env rand).mediale = some pz →
      pz.solution_user_id ∈ env.optInUsers.filter
        (fun uid => (Bot.alistGet env.membersMap uid).isSome)) ∧
    (∀ pz, (Bot.generatePuzzlesForGuild env rand).statle = some pz →
      pz.solution_user_id ∈ env.optInUsers.filter
        (fun uid => (Bot.alistGet env.membersMap uid).isSome)) ∧
    (∀ (l : List Bot.Msg) m, m ∈ (Bot.filterMessagesByOptIn l (env.optInUsers.filter
        (fun uid => (Bot.alistGet env.membersMap uid).isSome))).allMessages →
      (env.optInUsers.filter (fun uid => (Bot.alistGet env.membersMap uid).isSome)).contains
        m.authorId = true) ∧
    (∀ (opts : Bot.ScanOptions) m,
      m ∈ (Bot.collectRecentOptInMessages env.channels (env.optInUsers.filter
        (fun uid => (Bot.alistGet env.membersMap uid).isSome)) opts).allMessages →
      (env.optInUsers.filter (fun uid => (Bot.alistGet env.membersMap uid).isSome)).contains
        m.authorId = true) := by
  have hoim5 : ∀ (l : List Bot.Msg) m, m ∈ (Bot.filterMessagesByOptIn l
      (env.optInUsers.filter (fun uid => (Bot.alistGet env.membersMap uid).isSome))).allMessages →
      (env.optInUsers.filter (fun uid => (Bot.alistGet env.membersMap uid).isSome)).contains
        m.authorId = true := by
    intro l m hm
    have hx := List.of_mem_filter hm
    exact hx
  have hoim6 := fun opts => collectRecentOptInMessages_pure env.channels
    (env.optInUsers.filter (fun uid => (Bot.alistGet env.membersMap uid).isSome)) opts
  have hscanM : ∀ (opts : Bot.ScanOptions) m,
      m ∈ (Bot.collectRecentOptInMessages env.channels (env.optInUsers.filter
        (fun uid => (Bot.alistGet env.membersMap uid).isSome)) opts).allMessages →
      m.authorId ∈ env.optInUsers.filter
        (fun uid => (Bot.alistGet env.membersMap uid).isSome) :=
    fun opts m hm => (contains_true_iff _ _).mp ((hoim6 opts).1 m hm)
  have hscanB : ∀ (opts : Bot.ScanOptions) e,
      e ∈ (Bot.collectRecentOptInMessages env.channels (env.optInUsers.filter
        (fun uid => (Bot.alistGet env.membersMap uid).isSome)) opts).messagesByUser →
      e.1 ∈ env.optInUsers.filter
        (fun uid => (Bot.alistGet env.membersMap uid).isSome) :=
    fun opts e he => (contains_true_iff _ _).mp ((hoim6 opts).2 e he)
  rcases generate_maps_shape env rand with ⟨hopt, hempty⟩ | ⟨hopt, _, _, _, _⟩
  · refine ⟨?_, ?_, ?_, ?_, hoim5, fun opts m => (hoim6 opts).1 m⟩ <;>
    · intro x hx
      rw [hempty] at hx
      exact absurd hx (by simp [Bot.emptyPipelineResult])
  · refine ⟨?_, ?_, ?_, ?_, hoim5, fun opts m => (hoim6 opts).1 m⟩
    · intro f hf
      unfold Bot.generatePuzzlesForGuild at hf
      rw [if_neg (by simp [hopt])] at hf
      dsimp only at hf
      rcases Option.map_eq_some'.mp hf with ⟨f0, hf0, hfe⟩
      rw [← hfe]
      cases hsel : Bot.selectRangeSample env.channels
          (env.optInUsers.filter (fun uid => (Bot.alistGet env.membersMap uid).isSome))
          [Bot.getDayRangeUtc env.nowMs (-1), Bot.getDayRangeUtc env.nowMs 0] with
      | none =>
        rw [hsel] at hf0
        dsimp only at hf0
        split at hf0
        · rename_i f1 heq1
          simp only [Option.some.injEq] at hf0
          subst hf0
          split at heq1
          · rename_i f2 heq2
            simp only [Option.some.injEq] at heq1
            subst heq1
            have h9 := buildFriendlePayload_solution
              (fun uid => uid ∈ env.optInUsers.filter
                (fun u2 => (Bot.alistGet env.membersMap u2).isSome))
              _ _ _ _ _ _ _ heq2 (fun e he => hscanB _ e he)
            exact h9
          · rename_i heq2
            split at heq1
            · rename_i f3 heq3
              simp only [Option.some.injEq] at heq1
              subst heq1
              have h9 := buildFriendlePayload_solution
                (fun uid => uid ∈ env.optInUsers.filter
                  (fun u2 => (Bot.alistGet env.membersMap u2).isSome))
                _ _ _ _ _ _ _ heq3 (fun e he => hscanB _ e he)
              exact h9
            · rename_i heq3
              exact absurd heq1 (by simp)
        · rename_i heq1
          have h9 := buildFallbackFriendle_solution _ _ _ _ _ _ _ hf0
          exact h9
      | some p =>
        obtain ⟨fs, r⟩ := p
        rw [hsel] at hf0
        dsimp only at hf0
        have hps := selectRangeSample_pure env.channels _ _ fs r hsel
        split at hf0
        · rename_i f1 heq1
          simp only [Option.some.injEq] at hf0
          subst hf0
          split at heq1
          · rename_i f2 heq2
            simp only [Option.some.injEq] at heq1
            subst heq1
            have h9 := buildFriendlePayload_solution
              (fun uid => uid ∈ env.optInUsers.filter
                (fun u2 => (Bot.alistGet env.membersMap u2).isSome))
              _ _ _ _ _ _ _ heq2
              (fun e he => (contains_true_iff _ _).mp (hps.2 e he))
            exact h9
          · rename_i heq2
            split at heq1
            · rename_i f3 heq3
              simp only [Option.some.injEq] at heq1
              subst heq1
              have h9 := buildFriendlePayload_solution
                (fun uid => uid ∈ env.optInUsers.filter
                  (fun u2 => (Bot.alistGet env.membersMap u2).isSome))
                _ _ _ _ _ _ _ heq3 (fun e he => hscanB _ e he)
              exact h9
            · rename_i heq3
              exact absurd heq1 (by simp)
        · rename_i heq1
          have h9 := buildFallbackFriendle_solution _ _ _ _ _ _ _ hf0
          exact h9
    · intro q hq
      unfold Bot.generatePuzzlesForGuild at hq
      rw [if_neg (by simp [hopt])] at hq
      dsimp only at hq
      rcases Option.map_eq_some'.mp hq with ⟨q0, hq0, hqe⟩
      rw [← hqe]
      cases hsel : Bot.selectRangeSample env.channels
          (env.optInUsers.filter (fun uid => (Bot.alistGet env.membersMap uid).isSome))
          [Bot.getDayRangeUtc env.nowMs (-1), Bot.getDayRangeUtc env.nowMs 0] with
      | none =>
        rw [hsel] at hq0
        dsimp only at hq0
        split at hq0
        · rename_i q1 heq1
          simp only [Option.some.injEq] at hq0
          subst hq0
          have h9 := buildQuotelePayload_solution
            (fun uid => uid ∈ env.optInUsers.filter
              (fun u2 => (Bot.alistGet env.membersMap u2).isSome))
            _ _ _ _ _ _ _ heq1 (fun m hm => hscanM _ m hm)
          exact h9
        · rename_i heq1
          have h9 := buildQuotelePayload_solution
            (fun uid => uid ∈ env.optInUsers.filter
              (fun u2 => (Bot.alistGet env.membersMap u2).isSome))
            _ _ _ _ _ _ _ hq0 (fun m hm => hscanM _ m hm)
          exact h9
      | some p =>
        obtain ⟨fs, r⟩ := p
        rw [hsel] at hq0
        dsimp only at hq0
        have hps := selectRangeSample_pure env.channels _ _ fs r hsel
        split at hq0
        · rename_i q1 heq1
          simp only [Option.some.injEq] at hq0
          subst hq0
          have h9 := buildQuotelePayload_solution
            (fun uid => uid ∈ env.optInUsers.filter
              (fun u2 => (Bot.alistGet env.membersMap u2).isSome))
            _ _ _ _ _ _ _ heq1
            (fun m hm => (contains_true_iff _ _).mp (hps.1 m hm))
          exact h9
        · rename_i heq1
          have h9 := buildQuotelePayload_solution
            (fun uid => uid ∈ env.optInUsers.filter
              (fun u2 => (Bot.alistGet env.membersMap u2).isSome))
            _ _ _ _ _ _ _ hq0 (fun m hm => hscanM _ m hm)
          exact h9
    · intro pz hpz
      unfold Bot.generatePuzzlesForGuild at hpz
      rw [if_neg (by simp [hopt])] at hpz
      dsimp only at hpz
      rcases Option.map_eq_some'.mp hpz with ⟨p0, hp0, hpe⟩
      rw [← hpe]
      cases hsel : Bot.selectRangeSample env.channels
          (env.optInUsers.filter (fun uid => (Bot.alistGet env.membersMap uid).isSome))
          [Bot.getDayRangeUtc env.nowMs (-1), Bot.getDayRangeUtc env.nowMs 0] with
      | none =>
        rw [hsel] at hp0
        dsimp only at hp0
        split at hp0
        · rename_i p1 heq1
          simp only [Option.some.injEq] at hp0
          subst hp0
          have h9 := buildMedialePayload_solution
            (fun uid => uid ∈ env.optInUsers.filter
              (fun u2 => (Bot.alistGet env.membersMap u2).isSome))
            _ _ _ _ heq1 (fun m hm => hscanM _ m hm)
          exact h9
        · rename_i heq1
          have h9 := buildMedialePayload_solution
            (fun uid => uid ∈ env.optInUsers.filter
              (fun u2 => (Bot.alistGet env.membersMap u2).isSome))
            _ _ _ _ hp0 (fun m hm => hscanM _ m hm)
          exact h9
      | some p =>
        obtain ⟨fs, r⟩ := p
        rw [hsel] at hp0
        dsimp only at hp0
        have hps := selectRangeSample_pure env.channels _ _ fs r hsel
        split at hp0
        · rename_i p1 heq1
          simp only [Option.some.injEq] at hp0
          subst hp0
          have h9 := buildMedialePayload_solution
            (fun uid => uid ∈ env.optInUsers.filter
              (fun u2 => (Bot.alistGet env.membersMap u2).isSome))
            _ _ _ _ heq1
            (fun m hm => (contains_true_iff _ _).mp (hps.1 m hm))
          exact h9
        · rename_i heq1
          have h9 := buildMedialePayload_solution
            (fun uid => uid ∈ env.optInUsers.filter
              (fun u2 => (Bot.alistGet env.membersMap u2).isSome))
            _ _ _ _ hp0 (fun m hm => hscanM _ m hm)
          exact h9
    · intro pz hpz
      unfold Bot.generatePuzzlesForGuild at hpz
      rw [if_neg (by simp [hopt])] at hpz
      dsimp only at hpz
      rcases Option.map_eq_some'.mp hpz with ⟨p0, hp0, hpe⟩
      rw [← hpe]
      cases hsel : Bot.selectRangeSample env.channels
          (env.optInUsers.filter (fun uid => (Bot.alistGet env.membersMap uid).isSome))
          [Bot.getDayRangeUtc env.nowMs (-1), Bot.getDayRangeUtc env.nowMs 0] with
      | none =>
        rw [hsel] at hp0
        dsimp only at hp0
        split at hp0
        · rename_i p1 heq1
          simp only [Option.some.injEq] at hp0
          subst hp0
          have h9 := buildStatlePayload_solution
            (fun uid => uid ∈ env.optInUsers.filter
              (fun u2 => (Bot.alistGet env.membersMap u2).isSome))
            _ _ _ _ _ heq1 (fun m hm => hscanM _ m hm)
          exact h9
        · rename_i heq1
          have h9 := buildStatlePayload_solution
            (fun uid => uid ∈ env.optInUsers.filter
              (fun u2 => (Bot.alistGet env.membersMap u2).isSome))
            _ _ _ _ _ hp0 (fun m hm => hscanM _ m hm)
          exact h9
      | some p =>
        obtain ⟨fs, r⟩ := p
        rw [hsel] at hp0
        dsimp only at hp0
        have hps := selectRangeSample_pure env.channels _ _ fs r hsel
        split at hp0
        · rename_i p1 heq1
          simp only [Option.some.injEq] at hp0
          subst hp0
          have h9 := buildStatlePayload_solution
            (fun uid => uid ∈ env.optInUsers.filter
              (fun u2 => (Bot.alistGet env.membersMap u2).isSome))
            _ _ _ _ _ heq1
            (fun m hm => (contains_true_iff _ _).mp (hps.1 m hm))
          exact h9
        · rename_i heq1
          have h9 := buildStatlePayload_solution
            (fun uid => uid ∈ env.optInUsers.filter
              (fun u2 => (Bot.alistGet env.membersMap u2).isSome))
            _ _ _ _ _ hp0 (fun m hm => hscanM _ m hm)
          exact h9

/-- Witness for `pipeline_solutions_opted_in`: a one-member guild with no
channels still produces a friendle puzzle (via the metrics fallback)
whose solution is the opted-in member. -/
theorem pipeline_solutions_opted_in_witness :
    (Bot.generatePuzzlesForGuild
        ⟨["u1"], [("u1", ⟨"u1", none, none, "alice", 0⟩)], [], 0, 40, fun _ => ""⟩
        ⟨0, 0, 0, 0, fun _ => 0, 0, fun _ => 0, 0, 0, 0, 0, 0, 0⟩).friendle
      = some ⟨"friendle_daily", "1970-01-01", "u1",
          ⟨"0 messages", "None", "Not active", 0, "Not active", "Less than 1 year"⟩,
          some "alice",
          some ⟨0, none, "Not active", 0, none, some "Less than 1 year"⟩⟩ ∧
    "u1" ∈ ["u1"].filter (fun uid => (Bot.alistGet
        [("u1", (⟨"u1", none, none, "alice", 0⟩ : Bot.Member))] uid).isSome) :=
  ⟨by decide, (pipeline_solutions_opted_in
      ⟨["u1"], [("u1", ⟨"u1", none, none, "alice", 0⟩)], [], 0, 40, fun _ => ""⟩
      ⟨0, 0, 0, 0, fun _ => 0, 0, fun _ => 0, 0, 0, 0, 0, 0, 0⟩).1
    ⟨"friendle_daily", "1970-01-01", "u1",
      ⟨"0 messages", "None", "Not active", 0, "Not active", "Less than 1 year"⟩,
      some "alice", some ⟨0, none, "Not active", 0, none, some "Less than 1 year"⟩⟩
    (by decide)⟩

end Friendle
